import Mathlib

/-!
# scope-control: angle grammar parser and position codec

A shallow embedding of the codec layer of `scope-control.c`
(`convert2angle`, `convert2position`, `convert2hhmmss`, `decode`,
`cmd_gotoposition`, `cmd_sync`) and of the command functions `cmd_settrack`,
`cmd_getmodel`, `cmd_slew`, `do_slew` with `errlog` and the loop of `main`,
together with theorems about them.

Conventions of the embedding:

* a C string is the list of its characters before the terminating NUL;
  reading at the end of the list reads the NUL;
* a `char *` into a string is the remaining suffix; that `convert2angle` leaves
  `*next` one byte beyond the terminator is recorded in the flag `past`, and the
  bytes found there are an argument (`after`) of the functions that read them;
* `int` is `Int` wrapped to 32 bits two's complement (`wrap32`) where the
  source does `int` arithmetic;
* a `double` is the rational it holds; every operation of `convert2angle` on
  doubles, and the product by 65526 of the low precision frame, is rounded to
  the nearest double, ties to even (`fl`), one operation at a time, with no
  fused multiply-add and no wider intermediate format; the products by 65536
  and 4294967296 and the quotients by them are exact on doubles and are left
  unrounded, and `decode` and `convert2hhmmss` are taken in exact arithmetic;
* `long` and `long long` have 64 bits, `char` is signed;
* the serial device is the list of bytes it will answer and the list of byte
  strings written to it.
-/

namespace ScopeControl

/-! ## Characters and machine integers -/

/-- The C library `isspace` in the "C" locale: space, `\t`, `\n`, `\v`, `\f`, `\r`. -/
def isspace (c : Char) : Bool :=
  c.toNat = 32 || (9 ≤ c.toNat && c.toNat ≤ 13)

/-- The test `c >= '0' && c <= '9'`. -/
def isdigit (c : Char) : Bool :=
  48 ≤ c.toNat && c.toNat ≤ 57

/-- The expression `c - '0'`. -/
def digitVal (c : Char) : Int :=
  (c.toNat : Int) - 48

/-- Reduction of an integer to the 32 bit two's complement range of `int`. -/
def wrap32 (z : Int) : Int :=
  (z + 2147483648) % 4294967296 - 2147483648

/-! ## Double precision -/

/-- Rounding of a non-negative rational to the nearest integer, a tie going to the even
neighbour. -/
def roundHalfEven (q : ℚ) : Int :=
  if q - ⌊q⌋ < 1 / 2 then ⌊q⌋
  else if 1 / 2 < q - ⌊q⌋ then ⌊q⌋ + 1
  else if ⌊q⌋ % 2 = 0 then ⌊q⌋ else ⌊q⌋ + 1

/-- The exponent of the spacing of the doubles around the positive value `x`: 52 below the
binary exponent of `x`, and never below -1074 (gradual underflow). -/
def ulpExponent (x : ℚ) : Int :=
  max (Int.log 2 x - 52) (-1074)

/-- The double nearest to the positive value `x`, a tie going to the even significand. -/
def roundMagnitude (x : ℚ) : ℚ :=
  (roundHalfEven (x / 2 ^ ulpExponent x) : ℚ) * 2 ^ ulpExponent x

/-- The double that receives the exact result `x` of one operation on doubles (IEEE 754
binary64, round to nearest, ties to even). Results beyond the largest double do not occur
in `convert2angle` and are not given a special value. -/
def fl (x : ℚ) : ℚ :=
  if x = 0 then 0 else if x < 0 then -roundMagnitude (-x) else roundMagnitude x

/-! ## convert2angle -/

/-- Outputs of `convert2angle`: the returned double, `*next`, and the out
parameters `*dh`, `*min`, `*sec` (`none` when the call does not write them)
and `*rerr`. The flag `past` says that `*next` is one byte beyond the terminating NUL
(the loop read the NUL with `*bp++`); `next` is then empty. -/
structure AngleResult where
  rvalue : ℚ
  next : List Char
  past : Bool
  dh : Option Int
  min : Option Int
  sec : Option ℚ
  rerr : Int
deriving DecidableEq

/-- The loop `for (number = 0; c >= '0' && c <= '9'; c = *bp++) number = number*10 + (c - '0');`
followed by `--bp`: started on the text whose head is the current character, it
returns the number read and the text from the character that broke the loop. -/
def scanNumber (number : Int) : List Char → Int × List Char
  | [] => (number, [])
  | c :: bp =>
    if isdigit c then scanNumber (wrap32 (number * 10 + digitVal c)) bp
    else (number, c :: bp)

/-- The loop of state 9: `while (c >= '0' && c <= '9') { fraction += (c - '0')*part; part /= 10.0; c = *bp++; }`.
Returns the fraction and the text from the character that broke the loop. -/
def scanFraction (fraction part : ℚ) : List Char → ℚ × List Char
  | [] => (fraction, [])
  | c :: bp =>
    if isdigit c then
      scanFraction (fl (fraction + fl ((digitVal c : ℚ) * part))) (fl (part / 10)) bp
    else (fraction, c :: bp)

/-- The label `err:` of `convert2angle`, reached on a character of the text:
`*next = bp; *rerr = state; return 0.0;`. -/
def angleErr (state : Int) (bp : List Char) : AngleResult :=
  { rvalue := 0, next := bp, past := false, dh := none, min := none, sec := none,
    rerr := state }

/-- The label `err:` of `convert2angle`, reached after `*bp++` read the terminating NUL:
`bp` is one byte beyond the terminator. -/
def angleErrEnd (state : Int) : AngleResult :=
  { rvalue := 0, next := [], past := true, dh := none, min := none, sec := none,
    rerr := state }

/-- The success exit of `convert2angle` (the code after `/* success! return values */`). -/
def angleDone (sign : Int) (type : Int) (number1 number2 number3 : Int) (fraction : ℚ)
    (bp : List Char) : AngleResult :=
  let rvalue : ℚ :=
    fl ((number1 : ℚ) + fl (fl ((number2 : ℚ) + fl (fl ((number3 : ℚ) + fraction) / 60)) / 60))
  let rvalue : ℚ := if type = 1 then fl (rvalue / 360) else fl (rvalue / 24)
  { rvalue := fl (rvalue * (sign : ℚ))
    next := bp
    past := false
    dh := some (wrap32 (number1 * sign))
    min := some (wrap32 (number2 * sign))
    sec := some (fl ((sign : ℚ) * fl ((number3 : ℚ) + fraction)))
    rerr := 0 }

/-- State 9 (grab fraction), entered on the text after the `.`, with `part = 0.1`. -/
def state9 (sign type number1 number2 number3 : Int) (bp : List Char) : AngleResult :=
  match scanFraction 0 (fl (1 / 10)) bp with
  | (_, []) => angleErrEnd 9
  | (fraction, c :: bp) =>
    if c = 's' ∨ c = 'S' then angleDone sign type number1 number2 number3 fraction bp
    else angleErr 9 bp

/-- State 8: must be `.`, `s` or `S`. -/
def state8 (sign type number1 number2 number3 : Int) : List Char → AngleResult
  | [] => angleErrEnd 8
  | c :: bp =>
    if c = 's' ∨ c = 'S' then angleDone sign type number1 number2 number3 0 bp
    else if c ≠ '.' then angleErr 8 bp
    else state9 sign type number1 number2 number3 bp

/-- State 7 (the seconds digits), reached by falling through from state 6 with
the current character `c`. -/
def state7 (sign type number1 number2 : Int) (c : Char) (bp : List Char) : AngleResult :=
  if !isdigit c then angleErr 7 bp
  else
    let r := scanNumber 0 (c :: bp)
    state8 sign type number1 number2 r.1 r.2

/-- State 6: skip white space, then fall through to state 7. -/
def state6 (sign type number1 number2 : Int) : List Char → AngleResult
  | [] => angleErrEnd 6
  | c :: bp =>
    if isspace c then state6 sign type number1 number2 bp
    else state7 sign type number1 number2 c bp

/-- State 5: must be `m` or `M`. -/
def state5 (sign type number1 number2 : Int) : List Char → AngleResult
  | [] => angleErrEnd 5
  | c :: bp =>
    if c ≠ 'm' ∧ c ≠ 'M' then angleErr 5 bp
    else state6 sign type number1 number2 bp

/-- State 4 (the minutes digits), reached by falling through from state 3 with
the current character `c`. -/
def state4 (sign type number1 : Int) (c : Char) (bp : List Char) : AngleResult :=
  if !isdigit c then angleErr 4 bp
  else
    let r := scanNumber 0 (c :: bp)
    state5 sign type number1 r.1 r.2

/-- State 3: skip white space, then fall through to state 4. -/
def state3 (sign type number1 : Int) : List Char → AngleResult
  | [] => angleErrEnd 3
  | c :: bp =>
    if isspace c then state3 sign type number1 bp
    else state4 sign type number1 c bp

/-- State 2: must be one of `d`, `D`, `h`, `H`. -/
def state2 (sign number1 : Int) : List Char → AngleResult
  | [] => angleErrEnd 2
  | c :: bp =>
    if c = 'd' ∨ c = 'D' then state3 sign 1 number1 bp
    else if c = 'h' ∨ c = 'H' then state3 sign 2 number1 bp
    else angleErr 2 bp

/-- The body of `case 1:` on the current character `c`: the leading digits. -/
def case1 (sign : Int) (c : Char) (bp : List Char) : AngleResult :=
  if !isdigit c then angleErr 1 bp
  else
    let r := scanNumber 0 (c :: bp)
    state2 sign r.1 r.2

/-- State 1 at the top of the loop (after a sign character). -/
def state1 (sign : Int) : List Char → AngleResult
  | [] => angleErrEnd 1
  | c :: bp => case1 sign c bp

/-- State 0: skip white space, take `+` or `-`, otherwise fall through to state 1. -/
def state0 : List Char → AngleResult
  | [] => angleErrEnd 0
  | c :: bp =>
    if isspace c then state0 bp
    else if c = '+' then state1 1 bp
    else if c = '-' then state1 (-1) bp
    else case1 1 c bp

/-- The function `convert2angle(buf, &next, &dh, &min, &sec, &rerr)`. -/
def convert2angle (buf : List Char) : AngleResult :=
  state0 buf

/-- The function `convert2position(buf, type, &rvalue1, &rvalue2)`: the returned `int`
and the two doubles stored. The second parse starts at the `next` of the first
one; when that is one byte beyond the terminator of `buf`, it reads `after`, the bytes
that lie there in memory (up to their first NUL). `err` is overwritten and never read. -/
def convert2position (buf : List Char) (_type : Int) (after : List Char) : Int × ℚ × ℚ :=
  let r1 := convert2angle buf
  let r2 := convert2angle (if r1.past = true then after else r1.next)
  (0, r1.rvalue, r2.rvalue)

/-! ## printf conversions and strtoll -/

/-- The character printed for one decimal digit. -/
def decChar (d : Nat) : Char :=
  Char.ofNat (48 + d)

/-- The character `%X` prints for one hexadecimal digit (upper case). -/
def hexChar (d : Nat) : Char :=
  if d < 10 then Char.ofNat (48 + d) else Char.ofNat (55 + d)

/-- The digits of `n` in base `b`, least significant first; `fuel` bounds their number. -/
def digitsFrom (b : Nat) : Nat → Nat → List Nat
  | 0, _ => []
  | fuel + 1, n => if n < b then [n] else (n % b) :: digitsFrom b fuel (n / b)

/-- The digits of `n` in base `b` as printed: most significant first, `0` as one digit. -/
def digitString (b : Nat) (digit : Nat → Char) (n : Nat) : List Char :=
  ((digitsFrom b (n + 1) n).reverse).map digit

/-- The conversion `%0wd` of a C `int`. -/
def fmtDec (w : Nat) (z : Int) : List Char :=
  if z < 0 then '-' :: List.leftpad (w - 1) '0' (digitString 10 decChar z.natAbs)
  else List.leftpad w '0' (digitString 10 decChar z.toNat)

/-- The conversion `%0wX` of an unsigned value. -/
def fmtHex (w : Nat) (n : Nat) : List Char :=
  List.leftpad w '0' (digitString 16 hexChar n)

/-- The value of a hexadecimal digit character, as `strtoll` reads it in base 16. -/
def hexVal (c : Char) : Option Nat :=
  if 48 ≤ c.toNat ∧ c.toNat ≤ 57 then some (c.toNat - 48)
  else if 97 ≤ c.toNat ∧ c.toNat ≤ 102 then some (c.toNat - 87)
  else if 65 ≤ c.toNat ∧ c.toNat ≤ 70 then some (c.toNat - 55)
  else none

/-- The digit loop of `strtoll` in base 16: accumulates while hexadecimal digits last. -/
def strtollDigits (acc : Nat) : List Char → Nat
  | [] => acc
  | c :: s =>
    match hexVal c with
    | some d => strtollDigits (acc * 16 + d) s
    | none => acc

/-- The optional `0x`/`0X` prefix of `strtoll` in base 16: it is skipped when a
hexadecimal digit follows it. -/
def skipHexPrefix (s : List Char) : List Char :=
  match s with
  | c :: x :: d :: t =>
    if c = '0' ∧ (x = 'x' ∨ x = 'X') ∧ (hexVal d).isSome = true then d :: t else s
  | _ => s

/-- The C library call `strtoll(s, NULL, 16)`: leading white space, an optional sign,
an optional `0x`/`0X` prefix, then the longest run of hexadecimal digits; the
result saturates at the range of `long long`. -/
def strtoll16 (s : List Char) : Int :=
  let s := s.dropWhile isspace
  let neg : Bool := decide (s.head? = some '-')
  let s := if s.head? = some '-' ∨ s.head? = some '+' then s.tail else s
  let n : Int := (strtollDigits 0 (skipHexPrefix s) : Nat)
  if neg = true then max (-n) (-9223372036854775808) else min n 9223372036854775807

/-! ## convert2hhmmss and decode -/

/-- The conversion of a `double` to `int` by a cast or an assignment: the
fractional part is discarded (truncation toward zero). Values outside the range
of `int` are undefined in C and are left unwrapped here. -/
def truncToInt (x : ℚ) : Int :=
  if 0 ≤ x then ⌊x⌋ else ⌈x⌉

/-- The table `ticks` of `convert2hhmmss`, indexed by the `hour` flag. -/
def ticks (hour : Fin 2) : List Char :=
  if hour = 0 then ['d', 'm', 's'] else ['h', 'm', 's']

/-- The arithmetic of `convert2hhmmss`: the flag `minus` and the four integers
`dh`, `m`, `s`, `frac` handed to `sprintf`. -/
def hhmmssFields (value : ℚ) : Bool × Int × Int × Int × Int :=
  let minus : Bool := value < 0
  let value : ℚ := if value < 0 then -value else value
  let dh : Int := ⌊value⌋
  let value : ℚ := (value - dh) * 60
  let m : Int := ⌊value⌋
  let value : ℚ := (value - m) * 60
  let s : Int := ⌊value⌋
  let value : ℚ := (value - s) * 1000
  let frac : Int := ⌊value⌋
  (minus, dh, m, s, frac)

/-- The function `convert2hhmmss(buf, value, hour)`: the text stored in `buf` by
`sprintf(buf, "%c%03d%c %02d%c %02d.%03d%c", ...)`. -/
def convert2hhmmss (value : ℚ) (hour : Fin 2) : List Char :=
  let f := hhmmssFields value
  let t := ticks hour
  [if f.1 = false then '+' else '-'] ++ fmtDec 3 f.2.1 ++ [t.getD 0 ' ', ' ']
    ++ fmtDec 2 f.2.2.1 ++ [t.getD 1 ' ', ' ']
    ++ fmtDec 2 f.2.2.2.1 ++ ['.'] ++ fmtDec 3 f.2.2.2.2 ++ [t.getD 2 ' ']

/-- Outputs of `decode`: the returned text and the two doubles stored in `ab`
(`none` when `ab` is left untouched). -/
structure DecodeResult where
  text : List Char
  ab : Option (ℚ × ℚ)
deriving DecidableEq

/-- The `switch` of `decode`: the values `ab[0]`, `ab[1]`, `m[0]`, `m[1]` it sets,
`none` on the `default:` branch. -/
def decodeFields (buf : List Char) (cmd : Char) : Option (ℚ × ℚ × ℚ × ℚ) :=
  if cmd = 'E' ∨ cmd = 'Z' then
    let v0 := strtoll16 buf
    let v1 := strtoll16 (buf.drop 5)
    some ((v0 : ℚ) / 65536, (v1 : ℚ) / 65536, (if cmd = 'E' then 24 else 360), 360)
  else if cmd = 'e' ∨ cmd = 'z' then
    let v0 := strtoll16 buf
    let v1 := strtoll16 (buf.drop 9)
    some ((v0 : ℚ) / 4294967296, (v1 : ℚ) / 4294967296, (if cmd = 'e' then 24 else 360), 360)
  else none

/-- The code of `decode` after the `switch`: fold of the second value, the two
renderings, and the store `ab[1] = r`. -/
def decodeTail (cmd : Char) (ab0 ab1 m0 m1 : ℚ) : DecodeResult :=
  let r : ℚ := if ab1 * m1 > 180 then ab1 * m1 - 360 else ab1 * m1
  let buf1 := convert2hhmmss (ab0 * m0) (if cmd = 'e' ∨ cmd = 'E' then 1 else 0)
  let buf2 := convert2hhmmss r 0
  { text := buf1 ++ [' '] ++ buf2, ab := some (ab0, r) }

/-- The function `decode(buf, cmd, ab)`. -/
def decode (buf : List Char) (cmd : Char) : DecodeResult :=
  match decodeFields buf cmd with
  | none => { text := "unimplemented".toList, ab := none }
  | some (ab0, ab1, m0, m1) => decodeTail cmd ab0 ab1 m0 m1

/-- The function `cmd_getposition(name, cmd, rlen)` on a device that answers the bytes
`reply`: `dev_read` takes exactly `rlen` bytes into the zeroed `buf`, which is
then decoded. `none` when the device sends fewer bytes (`dev_read` keeps waiting). -/
def cmd_getposition (cmd : Char) (rlen : Nat) (reply : List Char) : Option DecodeResult :=
  if reply.length < rlen then none else some (decode (reply.take rlen) cmd)

/-! ## cmd_gotoposition and cmd_sync -/

/-- The precise frame: `r1 = rvalue1*4294967296.0; r2 = rvalue2*4294967296.0;`
`sprintf(buf, "%c%08X,%08X", cmd, ((int)r1)&0xFFFFFFFF, ((int)r2)&0xFFFFFFFF)`. -/
def preciseFrame (cmd : Char) (rvalue1 rvalue2 : ℚ) : List Char :=
  let r1 : Int := truncToInt (rvalue1 * 4294967296)
  let r2 : Int := truncToInt (rvalue2 * 4294967296)
  [cmd] ++ fmtHex 8 ((wrap32 r1) % 4294967296).toNat ++ [',']
    ++ fmtHex 8 ((wrap32 r2) % 4294967296).toNat

/-- The low precision frame:
`sprintf(buf, "%c%04X,%04X", cmd, (int)(rvalue1*65536.0)&0xFFFF, (int)(rvalue2*65526.0)&0xFFFF)`.
The product by 65526 is rounded to a double before it is truncated. -/
def lowFrame (cmd : Char) (rvalue1 rvalue2 : ℚ) : List Char :=
  [cmd] ++ fmtHex 4 ((truncToInt (rvalue1 * 65536)) % 65536).toNat ++ [',']
    ++ fmtHex 4 ((truncToInt (fl (rvalue2 * 65526))) % 65536).toNat

/-- The function `cmd_gotoposition(name, cmd, optarg)`: the frame handed to `dev_write`,
`none` when the function returns before building one; `after` is what lies in memory
beyond the terminator of `optarg`. -/
def cmd_gotoposition (cmd : Char) (optarg after : List Char) : Option (List Char) :=
  let p :=
    if cmd = 'R' ∨ cmd = 'r' then convert2position optarg 1 after
    else convert2position optarg 0 after
  if p.1 < 0 then none
  else if cmd = 'r' ∨ cmd = 'b' then some (preciseFrame cmd p.2.1 p.2.2)
  else some (lowFrame cmd p.2.1 p.2.2)

/-- The function `cmd_sync(name, cmd, optarg)`: the frame handed to `dev_write`, `none`
when the function returns before building one; `after` is what lies in memory beyond the
terminator of `optarg`. -/
def cmd_sync (cmd : Char) (optarg after : List Char) : Option (List Char) :=
  let p := convert2position optarg 1 after
  if p.1 < 0 then none
  else if cmd = 's' then some (preciseFrame cmd p.2.1 p.2.2)
  else some (lowFrame cmd p.2.1 p.2.2)


/-! ## Device, error log and command loop -/

/-- The part of the process state the commands below touch: the flag `syserr`, the `type`
arguments of the calls of `errlog` so far, the byte strings handed to `dev_write` so far,
and the bytes the device has still to answer. -/
structure World where
  syserr : Int
  errors : List Int
  sent : List (List Nat)
  pending : List Nat
deriving DecidableEq

/-- The function `errlog(type, format, ...)`: prints the failure and sets `syserr = 1`. -/
def errlog (type : Int) (w : World) : World :=
  { w with errors := w.errors ++ [type], syserr := 1 }

/-- The function `dev_write(bufp, len)` on a device that takes every byte: the call
returns `len`. -/
def dev_write (bytes : List Nat) (w : World) : World :=
  { w with sent := w.sent ++ [bytes] }

/-- The function `dev_read(bufp, rlen)`: it loops until `rlen` bytes have arrived and
returns `rlen`; `none` when the device never sends that many. -/
def dev_read (rlen : Nat) (w : World) : Option (List Nat × World) :=
  if w.pending.length < rlen then none
  else some (w.pending.take rlen, { w with pending := w.pending.drop rlen })

/-- The loop of `main` on the commands `getopt_long` hands out, each as the effect of its
`cmd_` function: after every command, `if (syserr != 0) { dev_control(DEV_CLOSE, NULL);
exit(-1); }`. Returns the final state and the number of commands that were run; `none` when
a command never returns. -/
def mainLoop : List (World → Option World) → World → Option (World × Nat)
  | [], w => some (w, 0)
  | c :: cs, w =>
    match c w with
    | none => none
    | some w1 =>
      if w1.syserr ≠ 0 then some (w1, 1)
      else (mainLoop cs w1).map (fun r => (r.1, r.2 + 1))

/-! ## Tracking mode -/

/-- The table `track_modes`. -/
def track_modes : List (List Char) :=
  ["Off".toList, "Alt-Azimuth".toList, "EQNorth".toList, "EQSouth".toList]

/-- The function `cmd_settrack(type)`. -/
def cmd_settrack (type : List Char) (w : World) : Option World :=
  let i := track_modes.findIdx (fun mode => decide (mode = type))
  if i > 3 then some (errlog 0 w)
  else
    let w := dev_write [84, i] w
    match dev_read 1 w with
    | none => none
    | some (buf, w) =>
      if buf ≠ [35] then some (errlog 2 w)
      else some w

/-! ## Telescope model -/

/-- The table `models` of `cmd_getmodel`. -/
def models : List String :=
  ["None (0)", "GPS Series", "None (2)", "i-Series", "i-Series SE", "CGE", "Advanced GT",
    "SLT", "None (8)", "CPC", "GT", "NexStar 4/5 SE", "NexStar 6/8 SE"]

/-- What `cmd_getmodel` does with its reply: the read fails, or `model` is the text
`"Unknown Model"`, or `model = models[index]`; `entry` is `none` when `index` lies outside
the table. -/
inductive ModelReport where
  | failed
  | unknown
  | lookup (index : Int) (entry : Option String)
deriving DecidableEq

/-- The value of a byte read into a `char` (signed, as on x86). -/
def signedChar (b : Nat) : Int :=
  if b % 256 < 128 then ((b % 256 : Nat) : Int) else ((b % 256 : Nat) : Int) - 256

/-- The function `cmd_getmodel()` on the two bytes `buf[0]`, `buf[1]` it has read, with
`num_models = sizeof(models)/sizeof(char*)`. -/
def cmd_getmodel (buf0 buf1 : Nat) : ModelReport :=
  let num_models : Int := (models.length : Int)
  if buf1 ≠ 35 then ModelReport.failed
  else if signedChar buf0 ≤ 0 ∨ signedChar buf0 > num_models then ModelReport.unknown
  else ModelReport.lookup (signedChar buf0) (models.get? (signedChar buf0).toNat)

/-! ## Slew -/

/-- The C library call `abs(x)` on an `int`. -/
def cabs (x : Int) : Int :=
  wrap32 (if x < 0 then -x else x)

/-- The byte a `char` holds after an `int` is stored in it, read as unsigned. -/
def toByte (x : Int) : Nat :=
  (x % 256).toNat

/-- The buffer `buf` that `cmd_slew` fills for `fv` and `azalt` in {0, 1}. -/
def slewFrame (fv azalt rate : Int) : List Nat :=
  let b3 : Int := ((6 ||| (if rate ≥ 0 then 0 else 1) : Nat) : Int) + 30 * (if fv = 0 then 1 else 0)
  let b45 : Int × Int :=
    if fv = 0 then (cabs rate, 0)
    else (cabs (wrap32 (rate * 4)) / 256, cabs (wrap32 (rate * 4)) % 256)
  [80, 2 ||| fv.toNat, 16 ||| azalt.toNat, toByte b3, toByte b45.1, toByte b45.2, 0, 0]

/-- The function `cmd_slew(fv, azalt, rate)`. -/
def cmd_slew (fv azalt rate : Int) (w : World) : Option World :=
  if (fv ≠ 0 ∧ fv ≠ 1) ∨ (azalt ≠ 0 ∧ azalt ≠ 1) then some w
  else
    let w := dev_write (slewFrame fv azalt rate) w
    match dev_read 1 w with
    | none => none
    | some (buf, w) =>
      if buf ≠ [35] then some (errlog 0 w)
      else some w

/-- The digit loop of `strtol` in base 10. -/
def atoiDigits (acc : Nat) : List Char → Nat
  | [] => acc
  | c :: s => if isdigit c then atoiDigits (acc * 10 + (c.toNat - 48)) s else acc

/-- The C library call `atoi(s)`, as glibc defines it, `(int) strtol(s, NULL, 10)`: leading
white space, an optional sign, the longest run of decimal digits, saturated at the range
of `long` and then converted to `int`. -/
def atoi (s : List Char) : Int :=
  let s := s.dropWhile isspace
  let neg : Bool := decide (s.head? = some '-')
  let s := if s.head? = some '-' ∨ s.head? = some '+' then s.tail else s
  let n : Int := (atoiDigits 0 s : Nat)
  wrap32 (if neg = true then max (-n) (-9223372036854775808) else min n 9223372036854775807)

/-- The function `do_slew(optarg)`. The two copies into `buf1` and `buf2` (32 bytes each) are
taken up to the next comma. -/
def do_slew (optarg : List Char) (w : World) : Option World :=
  let buf1 := optarg.takeWhile (fun c => decide (c ≠ ','))
  match optarg.dropWhile (fun c => decide (c ≠ ',')) with
  | [] => some (errlog 0 w)
  | _ :: optarg =>
    let buf2 := optarg.takeWhile (fun c => decide (c ≠ ','))
    match optarg.dropWhile (fun c => decide (c ≠ ',')) with
    | [] => some (errlog 0 w)
    | _ :: optarg =>
      let rate := atoi optarg
      if buf1 ≠ "fixed".toList ∧ buf1 ≠ "variable".toList then some (errlog 0 w)
      else
        let fv : Int := if buf1 = "fixed".toList then 0 else 1
        if buf2 ≠ "azimuth".toList ∧ buf2 ≠ "RA".toList ∧ buf2 ≠ "altitude".toList
            ∧ buf2 ≠ "declination".toList then some (errlog 0 w)
        else
          let d : Int := if buf2 = "azimuth".toList ∨ buf2 = "RA".toList then 0 else 1
          if fv = 0 ∧ (rate < -9 ∨ rate > 9) then some (errlog 0 w)
          else cmd_slew fv d rate w

/-! ## The angle grammar, as the specification words it -/

/-- The value of a string of decimal digits. -/
def digitsValue (ds : List Char) : Nat :=
  ds.foldl (fun n c => n * 10 + (c.toNat - 48)) 0

/-- The value `0.F` of a string `F` of decimal digits read after the point. -/
def fractionValue (ds : List Char) : ℚ :=
  (digitsValue ds : ℚ) / 10 ^ ds.length

/-- The fraction of a digit string accumulated the way state 9 does it:
`fraction += digit*part; part /= 10.0` for each digit, every operation rounded. -/
def fractionAcc (fraction part : ℚ) : List Char → ℚ
  | [] => fraction
  | c :: ds => fractionAcc (fl (fraction + fl ((digitVal c : ℚ) * part))) (fl (part / 10)) ds

/-- A non-empty string of decimal digits. -/
def digitRun (ds : List Char) : Bool :=
  !ds.isEmpty && ds.all isdigit

/-- The text is empty or its first character fails `p`. -/
def headNot (p : Char → Bool) : List Char → Bool
  | [] => true
  | c :: _ => !p c

/-- A text cut into the pieces of the grammar
`ws [+-] digits unit ws digits m ws digits [. digits] s`. -/
structure AngleText where
  ws : List Char
  sgn : List Char
  whole : List Char
  unit : Char
  ws2 : List Char
  mins : List Char
  mch : Char
  ws3 : List Char
  secs : List Char
  frac : Option (List Char)
  sch : Char

namespace AngleText

/-- The text up to and including the minute digits. -/
def toMinutes (t : AngleText) : List Char :=
  t.ws ++ t.sgn ++ t.whole ++ [t.unit] ++ t.ws2 ++ t.mins

/-- The text up to and including the integer seconds digits. -/
def toSeconds (t : AngleText) : List Char :=
  t.toMinutes ++ [t.mch] ++ t.ws3 ++ t.secs

/-- The text up to and including the fraction, when there is one. -/
def toFraction (t : AngleText) : List Char :=
  t.toSeconds ++ (match t.frac with
    | none => []
    | some ds => '.' :: ds)

/-- The whole text, ending at its terminator. -/
def text (t : AngleText) : List Char :=
  t.toFraction ++ [t.sch]

/-- The pieces up to the minute digits have the form the grammar asks for. -/
def okMinutes (t : AngleText) : Bool :=
  t.ws.all isspace && decide (t.sgn = [] ∨ t.sgn = ['+'] ∨ t.sgn = ['-']) && digitRun t.whole
    && decide (t.unit = 'd' ∨ t.unit = 'D' ∨ t.unit = 'h' ∨ t.unit = 'H')
    && t.ws2.all isspace && digitRun t.mins

/-- The pieces up to the integer seconds digits have the form the grammar asks for. -/
def okSeconds (t : AngleText) : Bool :=
  t.okMinutes && decide (t.mch = 'm' ∨ t.mch = 'M') && t.ws3.all isspace && digitRun t.secs

/-- The pieces up to the fraction have the form the grammar asks for. -/
def okFraction (t : AngleText) : Bool :=
  t.okSeconds && (match t.frac with
    | none => true
    | some ds => ds.all isdigit)

/-- The whole text has the form the grammar asks for. -/
def wellFormed (t : AngleText) : Bool :=
  t.okFraction && decide (t.sch = 's' ∨ t.sch = 'S')

/-- None of the three integer digit strings exceeds the range of a C `int`. -/
def fitsInt (t : AngleText) : Bool :=
  decide (digitsValue t.whole < 2147483648) && decide (digitsValue t.mins < 2147483648)
    && decide (digitsValue t.secs < 2147483648)

/-- The sign: `-1` only when `-` was given. -/
def sign (t : AngleText) : Int :=
  if t.sgn = ['-'] then -1 else 1

/-- The value `0.F` of the fraction, `0` without one. -/
def fraction (t : AngleText) : ℚ :=
  match t.frac with
  | none => 0
  | some ds => fractionValue ds

/-- The fraction as the code accumulates it in doubles, `0` without one. -/
def doubleFraction (t : AngleText) : ℚ :=
  match t.frac with
  | none => 0
  | some ds => fractionAcc 0 (fl (1 / 10)) ds

/-- The number of digits of the fraction, `0` without one. -/
def fracDigits (t : AngleText) : Nat :=
  match t.frac with
  | none => 0
  | some ds => ds.length

/-- The units of a full turn: 360 for degrees, 24 for hours. -/
def turn (t : AngleText) : ℚ :=
  if t.unit = 'd' ∨ t.unit = 'D' then 360 else 24

/-- The composite fractional-turn value of the specification:
`sign * (W + (M + (S + 0.F)/60)/60) / R`. -/
def value (t : AngleText) : ℚ :=
  (t.sign : ℚ) * ((digitsValue t.whole : ℚ)
    + ((digitsValue t.mins : ℚ) + ((digitsValue t.secs : ℚ) + t.fraction) / 60) / 60) / t.turn

/-- The composite value evaluated in doubles, each operation rounded, in the order
`((W + (M + (S + F)/60)/60) / R) * sign` with the accumulated fraction `F`. -/
def doubleValue (t : AngleText) : ℚ :=
  fl (fl (fl ((digitsValue t.whole : ℚ)
      + fl (fl ((digitsValue t.mins : ℚ) + fl (fl ((digitsValue t.secs : ℚ) + t.doubleFraction) / 60))
          / 60)) / t.turn) * (t.sign : ℚ))

/-- The variable `type` the parser sets for the unit letter. -/
def unitType (t : AngleText) : Int :=
  if t.unit = 'd' ∨ t.unit = 'D' then 1 else 2

end AngleText

/-! ## Hexadecimal fields, as the specification words them -/

/-- The character is a hexadecimal digit. -/
def isHex (c : Char) : Bool :=
  (hexVal c).isSome

/-- The value of a string of hexadecimal digits. -/
def hexValue (ds : List Char) : Nat :=
  ds.foldl (fun n c => n * 16 + (hexVal c).getD 0) 0

/-- A field of exactly `w` hexadecimal digits. -/
def hexRun (w : Nat) (ds : List Char) : Bool :=
  decide (ds.length = w) && ds.all isHex

/-- The fold of the second decoded value: 360 is taken off above 180. -/
def foldDegrees (x : ℚ) : ℚ :=
  if x ≤ 180 then x else x - 360

/-- The width in hexadecimal digits of a field of the reply to `cmd`. -/
def fieldWidth (cmd : Char) : Nat :=
  if cmd = 'E' ∨ cmd = 'Z' then 4 else 8

/-- The number of wire units in a turn for `cmd`: 65536 or 4294967296. -/
def fieldScale (cmd : Char) : ℚ :=
  if cmd = 'E' ∨ cmd = 'Z' then 65536 else 4294967296

/-- The call left through its success exit (the only place that writes `*dh`). -/
def AngleResult.accepted (r : AngleResult) : Bool :=
  r.dh.isSome

/-- How the outputs for sign `-1` relate to those for sign `1` on the same digits. -/
def SignFlip (r1 r2 : AngleResult) : Prop :=
  r2.rerr = r1.rerr ∧ r2.next = r1.next ∧ r2.rvalue = -r1.rvalue
    ∧ r2.dh = r1.dh.map (fun x => wrap32 (-x)) ∧ r2.min = r1.min.map (fun x => wrap32 (-x))
    ∧ r2.sec = r1.sec.map (fun x => -x)
    ∧ (∀ x, r1.dh = some x → -2147483648 ≤ x ∧ x < 2147483648)
    ∧ (∀ x, r1.min = some x → -2147483648 ≤ x ∧ x < 2147483648)

/-- A sample text of the grammar: `" -123H 75M\t6.789S"`. -/
def sampleAngle : AngleText :=
  { ws := [' '], sgn := ['-'], whole := ['1', '2', '3'], unit := 'H', ws2 := [' '],
    mins := ['7', '5'], mch := 'M', ws3 := ['\t'], secs := ['6'],
    frac := some ['7', '8', '9'], sch := 'S' }

/-- A second sample text of the grammar: `"10d30m0s"`. -/
def sampleAngle2 : AngleText :=
  { ws := [], sgn := [], whole := ['1', '0'], unit := 'd', ws2 := [],
    mins := ['3', '0'], mch := 'm', ws3 := [], secs := ['0'], frac := none, sch := 's' }

/-- The text `"1d0m0s"`: one degree, 1/360 of a turn. -/
def oneDegree : AngleText :=
  { ws := [], sgn := [], whole := ['1'], unit := 'd', ws2 := [],
    mins := ['0'], mch := 'm', ws3 := [], secs := ['0'], frac := none, sch := 's' }

/-- The text `"0d0m0.3s"`: three tenths of a second of arc. -/
def threeTenths : AngleText :=
  { ws := [], sgn := [], whole := ['0'], unit := 'd', ws2 := [],
    mins := ['0'], mch := 'm', ws3 := [], secs := ['0'], frac := some ['3'], sch := 's' }

/-- A number below 100 written with exactly two decimal digits. -/
def twoDigits (n : Nat) : List Char :=
  [decChar (n / 10), decChar (n % 10)]

/-- A number below 1000 written with exactly three decimal digits. -/
def threeDigits (n : Nat) : List Char :=
  [decChar (n / 100), decChar (n / 10 % 10), decChar (n % 10)]

/-- The four axis names `do_slew` accepts. -/
def axisNames : List (List Char) :=
  ["azimuth".toList, "RA".toList, "altitude".toList, "declination".toList]

/-- The argument text `fixed,<axis>,<n>` with `n` written in decimal. -/
def fixedSlewText (axis : List Char) (n : Int) : List Char :=
  "fixed".toList ++ [','] ++ axis ++ [','] ++ fmtDec 0 n

/-- A state before any command ran: no error, nothing sent, the device ready to answer
with the bytes `pending`. -/
def freshWorld (pending : List Nat) : World :=
  { syserr := 0, errors := [], sent := [], pending := pending }

/-- The outcome of a parse is one of the two exits with a telling code: the success exit
with `*rerr = 0`, or the error exit with a stage code from 1 to 9 and the value 0. -/
def Settled (r : AngleResult) : Prop :=
  (r.accepted = true ∧ r.rerr = 0)
    ∨ (r.accepted = false ∧ 1 ≤ r.rerr ∧ r.rerr ≤ 9 ∧ r.rvalue = 0)

/-- The computed value `x` approximates the exact value `y >= 0` with an error of at most
`k` units of relative size `2^-52` and `m` units of absolute size `2^-1074`. -/
def Near (k m x y : ℚ) : Prop :=
  0 ≤ y ∧ |x - y| ≤ k / 2 ^ 52 * y + m / 2 ^ 1074

/-- The digit loop of `scanNumber` as a fold. -/
def wrapDigits (number : Int) (ds : List Char) : Int :=
  ds.foldl (fun n c => wrap32 (n * 10 + digitVal c)) number

/-! ## Rounding to doubles -/

theorem fl_zero : fl 0 = 0 := by
  simp [fl]

theorem fl_neg (x : ℚ) : fl (-x) = -fl x := by
  unfold fl
  rcases lt_trichotomy x 0 with h | h | h
  · have h1 : ¬ (-x = 0) := by intro h2; linarith
    have h2 : ¬ (-x < 0) := by linarith
    have h3 : ¬ (x = 0) := by intro h2; linarith
    simp only [h1, h2, h3, h, if_true, if_false, neg_neg]
  · subst h
    simp
  · have h1 : ¬ (-x = 0) := by intro h2; linarith
    have h2 : -x < 0 := by linarith
    have h3 : ¬ (x = 0) := by intro h2; linarith
    have h4 : ¬ (x < 0) := by linarith
    simp only [h1, h2, h3, h4, if_true, if_false, neg_neg]

theorem ulpExponent_eq (x : ℚ) (e : Int) (h0 : 0 < x) (h1 : (2 : ℚ) ^ e ≤ x)
    (h2 : x < (2 : ℚ) ^ (e + 1)) (he : -1022 ≤ e) : ulpExponent x = e - 52 := by
  have hl1 : e ≤ Int.log 2 x :=
    (Int.zpow_le_iff_le_log (b := 2) (by norm_num) h0).mp (by exact_mod_cast h1)
  have hl2 : Int.log 2 x < e + 1 :=
    (Int.lt_zpow_iff_log_lt (b := 2) (by norm_num) h0).mp (by exact_mod_cast h2)
  have hl : Int.log 2 x = e := by omega
  unfold ulpExponent
  rw [hl]
  omega

/-- The value of `fl` at a positive `x` of binary exponent `e` in the normal range. -/
theorem fl_eval (x : ℚ) (e : Int) (h0 : 0 < x) (h1 : (2 : ℚ) ^ e ≤ x)
    (h2 : x < (2 : ℚ) ^ (e + 1)) (he : -1022 ≤ e) :
    fl x = (roundHalfEven (x / 2 ^ (e - 52)) : ℚ) * 2 ^ (e - 52) := by
  have h3 : ¬ x = 0 := ne_of_gt h0
  have h4 : ¬ x < 0 := not_lt.mpr h0.le
  simp only [fl, h3, h4, if_false, roundMagnitude, ulpExponent_eq x e h0 h1 h2 he]

theorem isdigit_iff (c : Char) : isdigit c = true ↔ 48 ≤ c.toNat ∧ c.toNat ≤ 57 := by
  simp [isdigit]

theorem isspace_of_isdigit {c : Char} (h : isdigit c = true) : isspace c = false := by
  rw [isdigit_iff] at h
  simp only [isspace, Bool.or_eq_false_iff, Bool.and_eq_false_iff, decide_eq_false_iff_not]
  omega

theorem ne_of_isdigit {c d : Char} (h : isdigit c = true) (hd : isdigit d = false) : c ≠ d := by
  rintro rfl
  rw [h] at hd
  exact Bool.noConfusion hd

theorem scanNumber_append (ds rest : List Char) (number : Int)
    (hds : ds.all isdigit = true) (hrest : headNot isdigit rest = true) :
    scanNumber number (ds ++ rest) = (wrapDigits number ds, rest) := by
  induction ds generalizing number with
  | nil =>
    cases rest with
    | nil => rfl
    | cons c bp =>
      have hc : isdigit c = false := by simpa [headNot] using hrest
      simp [scanNumber, wrapDigits, hc]
  | cons d ds ih =>
    have hd : isdigit d = true := by simp [List.all_cons] at hds; exact hds.1
    have hds2 : ds.all isdigit = true := by simp [List.all_cons] at hds ⊢; exact hds.2
    have hstep : scanNumber number (d :: (ds ++ rest))
        = scanNumber (wrap32 (number * 10 + digitVal d)) (ds ++ rest) := by
      simp [scanNumber, hd]
    rw [List.cons_append, hstep, ih _ hds2]
    rfl

theorem wrap32_of_range {z : Int} (h0 : 0 ≤ z) (h1 : z < 2147483648) : wrap32 z = z := by
  unfold wrap32
  omega

theorem digitsValue_snoc (ds : List Char) (c : Char) :
    digitsValue (ds ++ [c]) = digitsValue ds * 10 + (c.toNat - 48) := by
  simp [digitsValue, List.foldl_append]

theorem wrapDigits_snoc (ds : List Char) (c : Char) (number : Int) :
    wrapDigits number (ds ++ [c]) = wrap32 (wrapDigits number ds * 10 + digitVal c) := by
  simp [wrapDigits, List.foldl_append]

theorem wrapDigits_eq_digitsValue (ds : List Char) (hds : ds.all isdigit = true)
    (h : digitsValue ds < 2147483648) : wrapDigits 0 ds = (digitsValue ds : Int) := by
  induction ds using List.reverseRecOn with
  | nil => rfl
  | append_singleton ds c ih =>
    have hc : isdigit c = true := by
      simp only [List.all_append, List.all_cons, List.all_nil, Bool.and_true,
        Bool.and_eq_true] at hds
      exact hds.2
    have hds2 : ds.all isdigit = true := by
      simp only [List.all_append, Bool.and_eq_true] at hds
      exact hds.1
    rw [digitsValue_snoc] at h
    rw [isdigit_iff] at hc
    rw [wrapDigits_snoc, digitsValue_snoc, ih hds2 (by omega)]
    have hv : digitVal c = ((c.toNat - 48 : Nat) : Int) := by
      unfold digitVal
      omega
    rw [hv]
    rw [wrap32_of_range (by positivity) (by omega)]
    push_cast
    ring


theorem digitsValue_foldl (ds : List Char) (a : Nat) :
    ds.foldl (fun n c => n * 10 + (c.toNat - 48)) a = a * 10 ^ ds.length + digitsValue ds := by
  induction ds generalizing a with
  | nil => simp [digitsValue]
  | cons d ds ih =>
    simp only [List.foldl_cons, List.length_cons, digitsValue]
    rw [ih, ih (0 * 10 + (d.toNat - 48))]
    ring

theorem digitsValue_cons (d : Char) (ds : List Char) :
    digitsValue (d :: ds) = (d.toNat - 48) * 10 ^ ds.length + digitsValue ds := by
  have h := digitsValue_foldl ds (0 * 10 + (d.toNat - 48))
  simp only [Nat.zero_mul, Nat.zero_add] at h
  simpa [digitsValue] using h

theorem digitVal_cast {d : Char} (hd : isdigit d = true) :
    (digitVal d : ℚ) = ((d.toNat - 48 : Nat) : ℚ) := by
  rw [isdigit_iff] at hd
  have h : digitVal d = ((d.toNat - 48 : Nat) : Int) := by
    unfold digitVal
    omega
  rw [h]
  norm_cast

theorem fractionValue_cons {d : Char} (hd : isdigit d = true) (ds : List Char) :
    fractionValue (d :: ds) = ((digitVal d : ℚ) + fractionValue ds) / 10 := by
  unfold fractionValue
  rw [digitsValue_cons, digitVal_cast hd, List.length_cons]
  have h10 : (10 : ℚ) ^ ds.length ≠ 0 := by positivity
  push_cast
  rw [pow_succ]
  field_simp

theorem scanFraction_append (ds rest : List Char) (fraction part : ℚ)
    (hds : ds.all isdigit = true) (hrest : headNot isdigit rest = true) :
    scanFraction fraction part (ds ++ rest) = (fractionAcc fraction part ds, rest) := by
  induction ds generalizing fraction part with
  | nil =>
    cases rest with
    | nil => rfl
    | cons c bp =>
      have hc : isdigit c = false := by simpa [headNot] using hrest
      simp [scanFraction, fractionAcc, hc]
  | cons d ds ih =>
    have hd : isdigit d = true := by simp [List.all_cons] at hds; exact hds.1
    have hds2 : ds.all isdigit = true := by simp [List.all_cons] at hds ⊢; exact hds.2
    have hstep : scanFraction fraction part (d :: (ds ++ rest))
        = scanFraction (fl (fraction + fl ((digitVal d : ℚ) * part))) (fl (part / 10))
            (ds ++ rest) := by
      simp [scanFraction, hd]
    rw [List.cons_append, hstep, ih _ _ hds2]
    rfl

theorem state0_spaces (ws bp : List Char) (hws : ws.all isspace = true) :
    state0 (ws ++ bp) = state0 bp := by
  induction ws with
  | nil => rfl
  | cons c ws ih =>
    have hc : isspace c = true := by simp [List.all_cons] at hws; exact hws.1
    have hws2 : ws.all isspace = true := by simp [List.all_cons] at hws ⊢; exact hws.2
    rw [List.cons_append]
    simp only [state0, hc, if_true]
    exact ih hws2

theorem state3_spaces (sign type number1 : Int) (ws bp : List Char)
    (hws : ws.all isspace = true) :
    state3 sign type number1 (ws ++ bp) = state3 sign type number1 bp := by
  induction ws with
  | nil => rfl
  | cons c ws ih =>
    have hc : isspace c = true := by simp [List.all_cons] at hws; exact hws.1
    have hws2 : ws.all isspace = true := by simp [List.all_cons] at hws ⊢; exact hws.2
    rw [List.cons_append]
    simp only [state3, hc, if_true]
    exact ih hws2

theorem state6_spaces (sign type number1 number2 : Int) (ws bp : List Char)
    (hws : ws.all isspace = true) :
    state6 sign type number1 number2 (ws ++ bp) = state6 sign type number1 number2 bp := by
  induction ws with
  | nil => rfl
  | cons c ws ih =>
    have hc : isspace c = true := by simp [List.all_cons] at hws; exact hws.1
    have hws2 : ws.all isspace = true := by simp [List.all_cons] at hws ⊢; exact hws.2
    rw [List.cons_append]
    simp only [state6, hc, if_true]
    exact ih hws2

theorem digitRun_cons {ds : List Char} (h : digitRun ds = true) :
    ∃ d tl, ds = d :: tl ∧ isdigit d = true ∧ tl.all isdigit = true ∧ ds.all isdigit = true := by
  cases ds with
  | nil => simp [digitRun] at h
  | cons d tl =>
    simp only [digitRun, List.isEmpty_cons, Bool.not_false, Bool.true_and, List.all_cons,
      Bool.and_eq_true] at h
    exact ⟨d, tl, rfl, h.1, h.2, by simp [List.all_cons, h.1, h.2]⟩

/-- The leading digits: from `case 1:` on a digit run to state 2. -/
theorem case1_digits (sign : Int) (ds rest : List Char) (hds : digitRun ds = true)
    (hrest : headNot isdigit rest = true) :
    state1 sign (ds ++ rest) = state2 sign (wrapDigits 0 ds) rest := by
  obtain ⟨d, tl, rfl, hd, -, hall⟩ := digitRun_cons hds
  have h := scanNumber_append (d :: tl) rest 0 hall hrest
  rw [List.cons_append] at h ⊢
  simp only [state1, case1, hd, Bool.not_true, Bool.false_eq_true, if_false, h]

/-- The minutes digits: from state 3 over white space and a digit run to state 5. -/
theorem state3_digits (sign type number1 : Int) (ws ds rest : List Char)
    (hws : ws.all isspace = true) (hds : digitRun ds = true)
    (hrest : headNot isdigit rest = true) :
    state3 sign type number1 (ws ++ ds ++ rest)
      = state5 sign type number1 (wrapDigits 0 ds) rest := by
  obtain ⟨d, tl, rfl, hd, -, hall⟩ := digitRun_cons hds
  have h := scanNumber_append (d :: tl) rest 0 hall hrest
  rw [List.append_assoc, state3_spaces _ _ _ _ _ hws]
  rw [List.cons_append] at h ⊢
  simp only [state3, state4, isspace_of_isdigit hd, hd, Bool.not_true, Bool.false_eq_true,
    if_false, h]

/-- The seconds digits: from state 6 over white space and a digit run to state 8. -/
theorem state6_digits (sign type number1 number2 : Int) (ws ds rest : List Char)
    (hws : ws.all isspace = true) (hds : digitRun ds = true)
    (hrest : headNot isdigit rest = true) :
    state6 sign type number1 number2 (ws ++ ds ++ rest)
      = state8 sign type number1 number2 (wrapDigits 0 ds) rest := by
  obtain ⟨d, tl, rfl, hd, -, hall⟩ := digitRun_cons hds
  have h := scanNumber_append (d :: tl) rest 0 hall hrest
  rw [List.append_assoc, state6_spaces _ _ _ _ _ _ hws]
  rw [List.cons_append] at h ⊢
  simp only [state6, state7, isspace_of_isdigit hd, hd, Bool.not_true, Bool.false_eq_true,
    if_false, h]


/-- The variable `type` after state 2: 1 for `d`/`D`, 2 for `h`/`H`. -/
theorem state2_unit (sign number1 : Int) (u : Char) (bp : List Char)
    (hu : u = 'd' ∨ u = 'D' ∨ u = 'h' ∨ u = 'H') :
    state2 sign number1 (u :: bp)
      = state3 sign (if u = 'd' ∨ u = 'D' then 1 else 2) number1 bp := by
  rcases hu with rfl | rfl | rfl | rfl <;> simp [state2]

theorem headNot_cons_of {p : Char → Bool} {c : Char} (bp : List Char) (h : p c = false) :
    headNot p (c :: bp) = true := by
  simp [headNot, h]

theorem toWhole_state2 (ws sgn ds rest : List Char) (hws : ws.all isspace = true)
    (hsgn : sgn = [] ∨ sgn = ['+'] ∨ sgn = ['-']) (hds : digitRun ds = true)
    (hrest : headNot isdigit rest = true) :
    convert2angle (ws ++ sgn ++ ds ++ rest)
      = state2 (if sgn = ['-'] then -1 else 1) (wrapDigits 0 ds) rest := by
  unfold convert2angle
  rw [List.append_assoc, List.append_assoc, state0_spaces _ _ hws]
  rcases hsgn with rfl | rfl | rfl
  · obtain ⟨d, tl, rfl, hd, -, -⟩ := digitRun_cons hds
    have h1 : d ≠ '+' := ne_of_isdigit hd (by decide)
    have h2 : d ≠ '-' := ne_of_isdigit hd (by decide)
    have h := case1_digits 1 (d :: tl) rest hds hrest
    simp only [List.nil_append, List.cons_append, state0, isspace_of_isdigit hd, h1, h2,
      Bool.false_eq_true, if_false] at h ⊢
    simpa [state1] using h
  · have h := case1_digits 1 ds rest hds hrest
    simpa [state0, isspace] using h
  · have h := case1_digits (-1) ds rest hds hrest
    simpa [state0, isspace] using h

namespace AngleText

theorem toMinutes_state5 (t : AngleText) (rest : List Char) (h : t.okMinutes = true)
    (hrest : headNot isdigit rest = true) :
    convert2angle (t.toMinutes ++ rest)
      = state5 t.sign t.unitType (wrapDigits 0 t.whole) (wrapDigits 0 t.mins) rest := by
  simp only [okMinutes, Bool.and_eq_true, decide_eq_true_eq] at h
  obtain ⟨⟨⟨⟨⟨hws, hsgn⟩, hW⟩, hu⟩, hws2⟩, hM⟩ := h
  have hun : isdigit t.unit = false := by
    rcases hu with h | h | h | h <;> rw [h] <;> decide
  have e : t.toMinutes ++ rest
      = t.ws ++ t.sgn ++ t.whole ++ (t.unit :: (t.ws2 ++ t.mins ++ rest)) := by
    simp [toMinutes, List.append_assoc]
  rw [e, toWhole_state2 _ _ _ _ hws hsgn hW (headNot_cons_of _ hun), state2_unit _ _ _ _ hu,
    state3_digits _ _ _ _ _ _ hws2 hM hrest]
  rfl

theorem toSeconds_state8 (t : AngleText) (rest : List Char) (h : t.okSeconds = true)
    (hrest : headNot isdigit rest = true) :
    convert2angle (t.toSeconds ++ rest)
      = state8 t.sign t.unitType (wrapDigits 0 t.whole) (wrapDigits 0 t.mins)
          (wrapDigits 0 t.secs) rest := by
  simp only [okSeconds, Bool.and_eq_true, decide_eq_true_eq] at h
  obtain ⟨⟨⟨hmin, hm⟩, hws3⟩, hS⟩ := h
  have hmn : isdigit t.mch = false := by
    rcases hm with h | h <;> rw [h] <;> decide
  have e : t.toSeconds ++ rest = t.toMinutes ++ (t.mch :: (t.ws3 ++ t.secs ++ rest)) := by
    simp [toSeconds, List.append_assoc]
  have h5 : state5 t.sign t.unitType (wrapDigits 0 t.whole) (wrapDigits 0 t.mins)
      (t.mch :: (t.ws3 ++ t.secs ++ rest))
      = state6 t.sign t.unitType (wrapDigits 0 t.whole) (wrapDigits 0 t.mins)
          (t.ws3 ++ t.secs ++ rest) := by
    rcases hm with h | h <;> simp [state5, h]
  rw [e, toMinutes_state5 t _ hmin (headNot_cons_of _ hmn), h5,
    state6_digits _ _ _ _ _ _ _ hws3 hS hrest]

/-- A well-formed text followed by anything: the parser takes its success exit, with the
numbers its digit loops computed, and `*next` is what follows the terminator. -/
theorem text_done (t : AngleText) (rest : List Char) (h : t.wellFormed = true) :
    convert2angle (t.text ++ rest)
      = angleDone t.sign t.unitType (wrapDigits 0 t.whole) (wrapDigits 0 t.mins)
          (wrapDigits 0 t.secs) t.doubleFraction rest := by
  simp only [wellFormed, okFraction, Bool.and_eq_true, decide_eq_true_eq] at h
  obtain ⟨⟨hsec, hF⟩, hs⟩ := h
  have hsn : isdigit t.sch = false := by
    rcases hs with h | h <;> rw [h] <;> decide
  cases hfr : t.frac with
  | none =>
    have e : t.text ++ rest = t.toSeconds ++ (t.sch :: rest) := by
      simp [text, toFraction, hfr, List.append_assoc]
    rw [e, toSeconds_state8 t _ hsec (headNot_cons_of _ hsn)]
    rcases hs with h | h <;> simp [state8, h, doubleFraction, hfr]
  | some ds =>
    rw [hfr] at hF
    have e : t.text ++ rest = t.toSeconds ++ ('.' :: (ds ++ t.sch :: rest)) := by
      simp [text, toFraction, hfr, List.append_assoc]
    have hf := scanFraction_append ds (t.sch :: rest) 0 (fl (1 / 10)) hF
      (headNot_cons_of _ hsn)
    rw [e, toSeconds_state8 t _ hsec (headNot_cons_of _ (by decide))]
    have e9 : state8 t.sign t.unitType (wrapDigits 0 t.whole) (wrapDigits 0 t.mins)
        (wrapDigits 0 t.secs) ('.' :: (ds ++ t.sch :: rest))
        = state9 t.sign t.unitType (wrapDigits 0 t.whole) (wrapDigits 0 t.mins)
          (wrapDigits 0 t.secs) (ds ++ t.sch :: rest) := by
      simp [state8]
    rw [e9]
    unfold state9
    rw [hf]
    rcases hs with h | h <;> simp [h, doubleFraction, hfr]

end AngleText


/-! ## The sign only reaches the success exit -/

theorem wrap32_neg_wrap32 (z : Int) : wrap32 (-(wrap32 z)) = wrap32 (-z) := by
  unfold wrap32
  omega

theorem signFlip_err (state : Int) (bp : List Char) :
    SignFlip (angleErr state bp) (angleErr state bp) := by
  simp [SignFlip, angleErr]

theorem signFlip_errEnd (state : Int) :
    SignFlip (angleErrEnd state) (angleErrEnd state) := by
  simp [SignFlip, angleErrEnd]

theorem wrap32_range (z : Int) : -2147483648 ≤ wrap32 z ∧ wrap32 z < 2147483648 := by
  unfold wrap32
  omega

theorem signFlip_done (type number1 number2 number3 : Int) (fraction : ℚ) (bp : List Char) :
    SignFlip (angleDone 1 type number1 number2 number3 fraction bp)
      (angleDone (-1) type number1 number2 number3 fraction bp) := by
  refine ⟨rfl, rfl, ?_, ?_, ?_, ?_, ?_, ?_⟩
  · simp only [angleDone, Int.cast_neg, Int.cast_one, mul_neg, mul_one, fl_neg]
  · simp only [angleDone, Option.map_some', mul_one, mul_neg, wrap32_neg_wrap32]
  · simp only [angleDone, Option.map_some', mul_one, mul_neg, wrap32_neg_wrap32]
  · simp only [angleDone, Int.cast_neg, Int.cast_one, neg_mul, one_mul, fl_neg,
      Option.map_some']
  · intro x hx
    simp only [angleDone, Option.some.injEq] at hx
    rw [← hx]
    exact wrap32_range _
  · intro x hx
    simp only [angleDone, Option.some.injEq] at hx
    rw [← hx]
    exact wrap32_range _

theorem signFlip_state9 (type number1 number2 number3 : Int) (bp : List Char) :
    SignFlip (state9 1 type number1 number2 number3 bp)
      (state9 (-1) type number1 number2 number3 bp) := by
  unfold state9
  rcases scanFraction 0 (fl (1 / 10)) bp with ⟨f, _ | ⟨c, r⟩⟩
  · exact signFlip_errEnd _
  · by_cases hc : c = 's' ∨ c = 'S'
    · simp only [hc, if_true]
      exact signFlip_done _ _ _ _ _ _
    · simp only [hc, if_false]
      exact signFlip_err _ _

theorem signFlip_state8 (type number1 number2 number3 : Int) (bp : List Char) :
    SignFlip (state8 1 type number1 number2 number3 bp)
      (state8 (-1) type number1 number2 number3 bp) := by
  cases bp with
  | nil => exact signFlip_errEnd _
  | cons c r =>
    simp only [state8]
    by_cases hc : c = 's' ∨ c = 'S'
    · simp only [hc, if_true]
      exact signFlip_done _ _ _ _ _ _
    · by_cases hp : c ≠ '.'
      · rw [if_neg hc, if_neg hc, if_pos hp, if_pos hp]
        exact signFlip_err _ _
      · rw [if_neg hc, if_neg hc, if_neg hp, if_neg hp]
        exact signFlip_state9 _ _ _ _ _

theorem signFlip_state6 (type number1 number2 : Int) (bp : List Char) :
    SignFlip (state6 1 type number1 number2 bp) (state6 (-1) type number1 number2 bp) := by
  induction bp with
  | nil => exact signFlip_errEnd _
  | cons c r ih =>
    simp only [state6]
    by_cases hc : isspace c = true
    · simp only [hc, if_true]
      exact ih
    · simp only [hc, state7]
      by_cases hd : isdigit c = true
      · simp only [hd, Bool.not_true, Bool.false_eq_true, if_false]
        exact signFlip_state8 _ _ _ _ _
      · simp only [hd, Bool.not_eq_true] at hd ⊢
        simp only [hd, Bool.not_false, if_true]
        exact signFlip_err _ _

theorem signFlip_state5 (type number1 number2 : Int) (bp : List Char) :
    SignFlip (state5 1 type number1 number2 bp) (state5 (-1) type number1 number2 bp) := by
  cases bp with
  | nil => exact signFlip_errEnd _
  | cons c r =>
    simp only [state5]
    by_cases hc : c ≠ 'm' ∧ c ≠ 'M'
    · rw [if_pos hc, if_pos hc]
      exact signFlip_err _ _
    · rw [if_neg hc, if_neg hc]
      exact signFlip_state6 _ _ _ _

theorem signFlip_state3 (type number1 : Int) (bp : List Char) :
    SignFlip (state3 1 type number1 bp) (state3 (-1) type number1 bp) := by
  induction bp with
  | nil => exact signFlip_errEnd _
  | cons c r ih =>
    simp only [state3]
    by_cases hc : isspace c = true
    · simp only [hc, if_true]
      exact ih
    · simp only [hc, state4]
      by_cases hd : isdigit c = true
      · simp only [hd, Bool.not_true, Bool.false_eq_true, if_false]
        exact signFlip_state5 _ _ _ _
      · simp only [hd, Bool.not_eq_true] at hd ⊢
        simp only [hd, Bool.not_false, if_true]
        exact signFlip_err _ _

theorem signFlip_state2 (number1 : Int) (bp : List Char) :
    SignFlip (state2 1 number1 bp) (state2 (-1) number1 bp) := by
  cases bp with
  | nil => exact signFlip_errEnd _
  | cons c r =>
    simp only [state2]
    by_cases hc : c = 'd' ∨ c = 'D'
    · simp only [hc, if_true]
      exact signFlip_state3 _ _ _
    · by_cases hh : c = 'h' ∨ c = 'H'
      · simp only [hc, hh, if_false, if_true]
        exact signFlip_state3 _ _ _
      · simp only [hc, hh, if_false]
        exact signFlip_err _ _

theorem signFlip_case1 (c : Char) (bp : List Char) :
    SignFlip (case1 1 c bp) (case1 (-1) c bp) := by
  simp only [case1]
  by_cases hd : isdigit c = true
  · simp only [hd, Bool.not_true, Bool.false_eq_true, if_false]
    exact signFlip_state2 _ _
  · simp only [Bool.not_eq_true] at hd
    simp only [hd, Bool.not_false, if_true]
    exact signFlip_err _ _

theorem map_wrap32_neg (o : Option Int)
    (hr : ∀ x, o = some x → -2147483648 ≤ x ∧ x < 2147483648)
    (hne : o ≠ some (-2147483648)) :
    o.map (fun x => wrap32 (-x)) = o.map (fun x => -x) := by
  cases o with
  | none => simp
  | some x =>
    have h1 := hr x rfl
    have h2 : x ≠ -2147483648 := fun hh => hne (by rw [hh])
    have h3 : wrap32 (-x) = -x := by
      unfold wrap32
      omega
    exact congrArg some h3

/-- A text that starts with a digit and the same text after a `-`. -/
theorem signFlip_convert2angle (c : Char) (bp : List Char) (hc : isdigit c = true) :
    SignFlip (convert2angle (c :: bp)) (convert2angle ('-' :: c :: bp)) := by
  have h1 : c ≠ '+' := ne_of_isdigit hc (by decide)
  have h2 : c ≠ '-' := ne_of_isdigit hc (by decide)
  have e1 : convert2angle (c :: bp) = case1 1 c bp := by
    simp [convert2angle, state0, isspace_of_isdigit hc, h1, h2]
  have e2 : convert2angle ('-' :: c :: bp) = case1 (-1) c bp := by
    simp [convert2angle, state0, state1, isspace]
  rw [e1, e2]
  exact signFlip_case1 c bp


/-! ## Accuracy of the rounded operations -/

theorem roundHalfEven_err (q : ℚ) : |(roundHalfEven q : ℚ) - q| ≤ 1 / 2 := by
  have h1 := Int.floor_le q
  have h2 := Int.lt_floor_add_one q
  unfold roundHalfEven
  rw [abs_le]
  split_ifs with a b c
  · constructor <;> linarith
  · push_cast
    constructor <;> linarith
  · constructor <;> linarith
  · push_cast
    constructor <;> linarith

theorem roundMagnitude_err (x : ℚ) (hx : 0 < x) :
    |roundMagnitude x - x| ≤ x / 2 ^ 53 + 1 / 2 ^ 1075 := by
  have hpos : (0 : ℚ) < 2 ^ ulpExponent x := by positivity
  have hr := roundHalfEven_err (x / 2 ^ ulpExponent x)
  have he : roundMagnitude x - x
      = ((roundHalfEven (x / 2 ^ ulpExponent x) : ℚ) - x / 2 ^ ulpExponent x)
          * 2 ^ ulpExponent x := by
    unfold roundMagnitude
    field_simp
  have h1 : |roundMagnitude x - x| ≤ 1 / 2 * 2 ^ ulpExponent x := by
    rw [he, abs_mul, abs_of_pos hpos]
    exact mul_le_mul_of_nonneg_right hr hpos.le
  have hlog : (2 : ℚ) ^ Int.log 2 x ≤ x := by
    have := Int.zpow_log_le_self (b := 2) (r := x) (by norm_num) hx
    exact_mod_cast this
  have h2 : (2 : ℚ) ^ ulpExponent x ≤ x / 2 ^ 52 + 1 / 2 ^ 1074 := by
    unfold ulpExponent
    rcases le_total (Int.log 2 x - 52) (-1074) with h | h
    · rw [max_eq_right h]
      have e : (2 : ℚ) ^ (-1074 : Int) = 1 / 2 ^ 1074 := by
        rw [zpow_neg]
        norm_num
      rw [e]
      have : 0 ≤ x / 2 ^ 52 := by positivity
      linarith
    · rw [max_eq_left h]
      have e : (2 : ℚ) ^ (Int.log 2 x - 52) = 2 ^ Int.log 2 x / 2 ^ 52 := by
        rw [zpow_sub₀ (by norm_num)]
        norm_num
      rw [e]
      have : (2 : ℚ) ^ Int.log 2 x / 2 ^ 52 ≤ x / 2 ^ 52 :=
        div_le_div_of_nonneg_right hlog (by positivity)
      have : (0 : ℚ) ≤ 1 / 2 ^ 1074 := by positivity
      linarith
  have e3 : x / 2 ^ 53 + 1 / 2 ^ 1075 = 1 / 2 * (x / 2 ^ 52 + 1 / 2 ^ 1074) := by
    ring
  rw [e3]
  linarith

/-- One rounding moves a value by at most `2^-53` of its size, or by `2^-1075`. -/
theorem fl_err (x : ℚ) : |fl x - x| ≤ |x| / 2 ^ 53 + 1 / 2 ^ 1075 := by
  rcases lt_trichotomy x 0 with h | h | h
  · have h1 : fl x = -roundMagnitude (-x) := by
      unfold fl
      rw [if_neg (ne_of_lt h), if_pos h]
    have h2 := roundMagnitude_err (-x) (by linarith)
    rw [h1, abs_of_neg h]
    have e : -roundMagnitude (-x) - x = -(roundMagnitude (-x) - -x) := by ring
    rw [e, abs_neg]
    exact h2
  · subst h
    rw [fl_zero]
    norm_num
  · have h1 : fl x = roundMagnitude x := by
      unfold fl
      rw [if_neg (ne_of_gt h), if_neg (not_lt.mpr h.le)]
    rw [h1, abs_of_pos h]
    exact roundMagnitude_err x h

theorem near_exact (y : ℚ) (hy : 0 ≤ y) : Near 0 0 y y := by
  refine ⟨hy, ?_⟩
  simp

theorem near_mono {k m k2 m2 x y : ℚ} (h : Near k m x y) (hk : k ≤ k2) (hm : m ≤ m2) :
    Near k2 m2 x y := by
  obtain ⟨hy, hb⟩ := h
  refine ⟨hy, hb.trans ?_⟩
  have h1 : k / 2 ^ 52 * y ≤ k2 / 2 ^ 52 * y :=
    mul_le_mul_of_nonneg_right (div_le_div_of_nonneg_right hk (by positivity)) hy
  have h2 : m / 2 ^ 1074 ≤ m2 / 2 ^ 1074 := div_le_div_of_nonneg_right hm (by positivity)
  linarith

theorem near_fl {k m x y : ℚ} (h : Near k m x y) (hk0 : 0 ≤ k) (hk1 : k ≤ 4503599627370496)
    (hm0 : 0 ≤ m) (hm1 : m ≤ 4503599627370496) : Near (k + 1) (m + 1) (fl x) y := by
  obtain ⟨hy, hb⟩ := h
  have hk : k ≤ 2 ^ 52 := by norm_num; exact hk1
  have hm : m ≤ 2 ^ 52 := by norm_num; exact hm1
  refine ⟨hy, ?_⟩
  have h1 := fl_err x
  have hky : k / 2 ^ 52 * y ≤ y := by
    have : k / 2 ^ 52 ≤ 1 := by
      rw [div_le_one (by positivity)]
      exact hk
    exact mul_le_of_le_one_left hy this
  have hky0 : 0 ≤ k / 2 ^ 52 * y := by positivity
  have hm1 : m / 2 ^ 1074 ≤ 1 / 2 ^ 1022 := by
    rw [div_le_div_iff₀ (by positivity) (by positivity)]
    have : (m : ℚ) * 2 ^ 1022 ≤ 2 ^ 52 * 2 ^ 1022 :=
      mul_le_mul_of_nonneg_right hm (by positivity)
    have e : (2 : ℚ) ^ 52 * 2 ^ 1022 = 1 * 2 ^ 1074 := by norm_num
    linarith
  have hm2 : 0 ≤ m / 2 ^ 1074 := by positivity
  have hx : |x| ≤ 2 * y + m / 2 ^ 1074 := by
    have h3 : |x| ≤ |y| + |x - y| := by
      have := abs_add y (x - y)
      have e : y + (x - y) = x := by ring
      rw [e] at this
      exact this
    rw [abs_of_nonneg hy] at h3
    linarith
  have h4 : |fl x - y| ≤ |fl x - x| + |x - y| := by
    have := abs_add (fl x - x) (x - y)
    have e : fl x - x + (x - y) = fl x - y := by ring
    rw [e] at this
    exact this
  have h5 : |x| / 2 ^ 53 ≤ (2 * y + m / 2 ^ 1074) / 2 ^ 53 :=
    div_le_div_of_nonneg_right hx (by positivity)
  have h6 : m / 2 ^ 1074 / 2 ^ 53 ≤ 1 / 2 ^ 1075 := by
    have : m / 2 ^ 1074 / 2 ^ 53 ≤ 1 / 2 ^ 1022 / 2 ^ 53 :=
      div_le_div_of_nonneg_right hm1 (by positivity)
    have e : (1 : ℚ) / 2 ^ 1022 / 2 ^ 53 = 1 / 2 ^ 1075 := by norm_num
    linarith
  have e7 : (2 * y + m / 2 ^ 1074) / 2 ^ 53 = y / 2 ^ 52 + m / 2 ^ 1074 / 2 ^ 53 := by
    ring
  have e8 : (k + 1) / 2 ^ 52 * y + (m + 1) / 2 ^ 1074
      = k / 2 ^ 52 * y + y / 2 ^ 52 + m / 2 ^ 1074 + 2 * (1 / 2 ^ 1075) := by
    ring
  rw [e8]
  linarith

theorem near_add {k m1 m2 x1 y1 x2 y2 : ℚ} (h1 : Near k m1 x1 y1) (h2 : Near k m2 x2 y2) :
    Near k (m1 + m2) (x1 + x2) (y1 + y2) := by
  obtain ⟨hy1, hb1⟩ := h1
  obtain ⟨hy2, hb2⟩ := h2
  refine ⟨by linarith, ?_⟩
  have h := abs_add (x1 - y1) (x2 - y2)
  have e : x1 - y1 + (x2 - y2) = x1 + x2 - (y1 + y2) := by ring
  rw [e] at h
  have e2 : k / 2 ^ 52 * (y1 + y2) + (m1 + m2) / 2 ^ 1074
      = (k / 2 ^ 52 * y1 + m1 / 2 ^ 1074) + (k / 2 ^ 52 * y2 + m2 / 2 ^ 1074) := by
    ring
  rw [e2]
  linarith

theorem near_const_add {k m x y : ℚ} (c : ℚ) (hc : 0 ≤ c) (hk : 0 ≤ k) (h : Near k m x y) :
    Near k m (c + x) (c + y) := by
  have h0 := near_add (near_mono (near_exact c hc) hk (le_refl 0)) h
  rw [zero_add] at h0
  exact h0

theorem near_div {k m x y : ℚ} (c : ℚ) (hc : 1 ≤ c) (hm : 0 ≤ m) (h : Near k m x y) :
    Near k m (x / c) (y / c) := by
  obtain ⟨hy, hb⟩ := h
  have hc0 : 0 < c := by linarith
  refine ⟨by positivity, ?_⟩
  have e : x / c - y / c = (x - y) / c := by ring
  rw [e, abs_div, abs_of_pos hc0]
  have h1 : |x - y| / c ≤ (k / 2 ^ 52 * y + m / 2 ^ 1074) / c :=
    div_le_div_of_nonneg_right hb hc0.le
  have e2 : (k / 2 ^ 52 * y + m / 2 ^ 1074) / c = k / 2 ^ 52 * (y / c) + m / 2 ^ 1074 / c := by
    ring
  have h2 : m / 2 ^ 1074 / c ≤ m / 2 ^ 1074 :=
    div_le_self (by positivity) hc
  linarith

theorem near_mul_left {k m x y : ℚ} (d : ℚ) (hd : 0 ≤ d) (h : Near k m x y) :
    Near k (d * m) (d * x) (d * y) := by
  obtain ⟨hy, hb⟩ := h
  refine ⟨by positivity, ?_⟩
  have e : d * x - d * y = d * (x - y) := by ring
  rw [e, abs_mul, abs_of_nonneg hd]
  have h1 : d * |x - y| ≤ d * (k / 2 ^ 52 * y + m / 2 ^ 1074) :=
    mul_le_mul_of_nonneg_left hb hd
  have e2 : d * (k / 2 ^ 52 * y + m / 2 ^ 1074)
      = k / 2 ^ 52 * (d * y) + d * m / 2 ^ 1074 := by
    ring
  linarith

theorem digitVal_range {d : Char} (hd : isdigit d = true) :
    (0 : ℚ) ≤ (digitVal d : ℚ) ∧ (digitVal d : ℚ) ≤ 9 := by
  rw [isdigit_iff] at hd
  have h1 : 0 ≤ digitVal d := by
    unfold digitVal
    omega
  have h2 : digitVal d ≤ 9 := by
    unfold digitVal
    omega
  exact ⟨by exact_mod_cast h1, by exact_mod_cast h2⟩

/-- The accumulated fraction against the exact one: after `j` digits the running `part` is
within `j + 1` units of `10^-(j+1)` and the running fraction within `j + 2` units. -/
theorem fractionAcc_near (ds : List Char) (hds : ds.all isdigit = true) :
    ∀ (j : Nat) (F P φ p : ℚ), j + ds.length ≤ 1000 →
      Near ((j : ℚ) + 1) ((j : ℚ) + 1) P p →
      Near ((j : ℚ) + 2) (5 * (j : ℚ) ^ 2 + 6 * (j : ℚ)) F φ →
      Near (((j + ds.length : Nat) : ℚ) + 2)
        (5 * ((j + ds.length : Nat) : ℚ) ^ 2 + 6 * ((j + ds.length : Nat) : ℚ))
        (fractionAcc F P ds) (φ + p * 10 * fractionValue ds) := by
  induction ds with
  | nil =>
    intro j F P φ p _ _ hF
    have e : φ + p * 10 * fractionValue [] = φ := by
      simp [fractionValue, digitsValue]
    rw [e]
    simpa [fractionAcc] using hF
  | cons d ds ih =>
    intro j F P φ p hj hP hF
    have hd : isdigit d = true := by simp [List.all_cons] at hds; exact hds.1
    have hds2 : ds.all isdigit = true := by simp [List.all_cons] at hds ⊢; exact hds.2
    obtain ⟨hd0, hd9⟩ := digitVal_range hd
    have hlen : j + 1 + ds.length ≤ 1000 := by
      simp only [List.length_cons] at hj
      omega
    have hjq : (j : ℚ) ≤ 1000 := by
      have : j ≤ 1000 := by omega
      exact_mod_cast this
    have hj0 : (0 : ℚ) ≤ (j : ℚ) := by positivity
    have hsq : (j : ℚ) ^ 2 ≤ 1000000 := by nlinarith
    have hsq0 : (0 : ℚ) ≤ (j : ℚ) ^ 2 := by positivity
    -- the next `part`
    have hP2 : Near (((j + 1 : Nat) : ℚ) + 1) (((j + 1 : Nat) : ℚ) + 1) (fl (P / 10)) (p / 10) := by
      have h := near_fl (near_div 10 (by norm_num) (by linarith) hP) (by linarith) (by linarith)
        (by linarith) (by linarith)
      push_cast
      exact h
    -- the product `digit * part`
    have hT : Near ((j : ℚ) + 2) (9 * (j : ℚ) + 10) (fl ((digitVal d : ℚ) * P))
        ((digitVal d : ℚ) * p) := by
      have h1 := near_mul_left (digitVal d : ℚ) hd0 hP
      have h2 : (digitVal d : ℚ) * ((j : ℚ) + 1) ≤ 9 * ((j : ℚ) + 1) :=
        mul_le_mul_of_nonneg_right hd9 (by linarith)
      have h3 := near_fl (near_mono h1 (le_refl _) h2) (by linarith) (by linarith)
        (by linarith) (by linarith)
      exact near_mono h3 (by linarith) (by linarith)
    -- the next fraction
    have hF2 : Near (((j + 1 : Nat) : ℚ) + 2)
        (5 * ((j + 1 : Nat) : ℚ) ^ 2 + 6 * ((j + 1 : Nat) : ℚ))
        (fl (F + fl ((digitVal d : ℚ) * P))) (φ + (digitVal d : ℚ) * p) := by
      have h1 := near_add hF hT
      have h2 := near_fl h1 (by linarith) (by linarith) (by linarith) (by linarith)
      push_cast
      exact near_mono h2 (by linarith) (by nlinarith)
    have h := ih hds2 (j + 1) _ _ _ _ hlen hP2 hF2
    have e1 : j + 1 + ds.length = j + (d :: ds).length := by
      simp only [List.length_cons]
      omega
    have e2 : φ + (digitVal d : ℚ) * p + p / 10 * 10 * fractionValue ds
        = φ + p * 10 * fractionValue (d :: ds) := by
      rw [fractionValue_cons hd]
      ring
    rw [e1, e2] at h
    exact h

theorem fractionValue_nonneg (ds : List Char) : 0 ≤ fractionValue ds := by
  unfold fractionValue
  positivity

/-- The fraction accumulated in doubles against the exact `0.F`. -/
theorem doubleFraction_near (t : AngleText) (hwf : t.wellFormed = true)
    (hn : t.fracDigits ≤ 1000) :
    Near ((t.fracDigits : ℚ) + 2) (5 * (t.fracDigits : ℚ) ^ 2 + 6 * (t.fracDigits : ℚ))
      t.doubleFraction t.fraction := by
  simp only [AngleText.wellFormed, AngleText.okFraction, Bool.and_eq_true,
    decide_eq_true_eq] at hwf
  have hF := hwf.1.2
  unfold AngleText.doubleFraction AngleText.fraction AngleText.fracDigits at *
  cases hfr : t.frac with
  | none =>
    simp only [hfr]
    exact near_mono (near_exact 0 (le_refl 0)) (by norm_num) (by norm_num)
  | some ds =>
    simp only [hfr] at hF hn ⊢
    have hP : Near (((0 : Nat) : ℚ) + 1) (((0 : Nat) : ℚ) + 1) (fl (1 / 10)) (1 / 10) := by
      have h := near_fl (near_exact (1 / 10) (by norm_num)) (le_refl 0) (by norm_num)
        (le_refl 0) (by norm_num)
      simpa using h
    have hF0 : Near (((0 : Nat) : ℚ) + 2) (5 * ((0 : Nat) : ℚ) ^ 2 + 6 * ((0 : Nat) : ℚ)) 0 0 :=
      near_mono (near_exact 0 (le_refl 0)) (by norm_num) (by norm_num)
    have h := fractionAcc_near ds hF 0 0 (fl (1 / 10)) 0 (1 / 10) (by omega) hP hF0
    have e : (0 : ℚ) + 1 / 10 * 10 * fractionValue ds = fractionValue ds := by ring
    rw [e, Nat.zero_add] at h
    exact h

/-- The rounded formula against the exact one: at most `n + 9` units of `2^-52` of relative
error and `5 n^2 + 6 n + 7` units of `2^-1074` of absolute error for `n` fraction digits. -/
theorem doubleValue_err (t : AngleText) (hwf : t.wellFormed = true)
    (hn : t.fracDigits ≤ 1000) :
    |t.doubleValue - t.value|
      ≤ ((t.fracDigits : ℚ) + 9) / 2 ^ 52 * |t.value|
        + (5 * (t.fracDigits : ℚ) ^ 2 + 6 * (t.fracDigits : ℚ) + 7) / 2 ^ 1074 := by
  have h0 := doubleFraction_near t hwf hn
  have hnq : (t.fracDigits : ℚ) ≤ 1000 := by exact_mod_cast hn
  have hn0 : (0 : ℚ) ≤ (t.fracDigits : ℚ) := by positivity
  have hsq : (t.fracDigits : ℚ) ^ 2 ≤ 1000000 := by nlinarith
  have hsq0 : (0 : ℚ) ≤ (t.fracDigits : ℚ) ^ 2 := by positivity
  have hW : (0 : ℚ) ≤ (digitsValue t.whole : ℚ) := by positivity
  have hM : (0 : ℚ) ≤ (digitsValue t.mins : ℚ) := by positivity
  have hS : (0 : ℚ) ≤ (digitsValue t.secs : ℚ) := by positivity
  have hR : (1 : ℚ) ≤ t.turn := by
    unfold AngleText.turn
    split_ifs <;> norm_num
  have h1 := near_fl (near_const_add (digitsValue t.secs : ℚ) hS (by linarith) h0)
    (by linarith) (by linarith) (by linarith) (by linarith)
  have h2 := near_fl (near_div 60 (by norm_num) (by linarith) h1)
    (by linarith) (by linarith) (by linarith) (by linarith)
  have h3 := near_fl (near_const_add (digitsValue t.mins : ℚ) hM (by linarith) h2)
    (by linarith) (by linarith) (by linarith) (by linarith)
  have h4 := near_fl (near_div 60 (by norm_num) (by linarith) h3)
    (by linarith) (by linarith) (by linarith) (by linarith)
  have h5 := near_fl (near_const_add (digitsValue t.whole : ℚ) hW (by linarith) h4)
    (by linarith) (by linarith) (by linarith) (by linarith)
  have h6 := near_fl (near_div t.turn hR (by linarith) h5)
    (by linarith) (by linarith) (by linarith) (by linarith)
  have h7 := near_fl h6 (by linarith) (by linarith) (by linarith) (by linarith)
  obtain ⟨hA, hb⟩ := near_mono h7
    (show _ ≤ (t.fracDigits : ℚ) + 9 by linarith)
    (show _ ≤ 5 * (t.fracDigits : ℚ) ^ 2 + 6 * (t.fracDigits : ℚ) + 7 by linarith)
  unfold AngleText.doubleValue AngleText.value
  by_cases hs : t.sgn = ['-']
  · have e : t.sign = -1 := by simp [AngleText.sign, hs]
    rw [e]
    simp only [Int.cast_neg, Int.cast_one, mul_neg, mul_one, fl_neg, neg_mul, one_mul, neg_div,
      abs_neg]
    have e2 : ∀ a b : ℚ, -a - -b = -(a - b) := by
      intro a b
      ring
    rw [e2, abs_neg, abs_of_nonneg hA]
    exact hb
  · have e : t.sign = 1 := by simp [AngleText.sign, hs]
    rw [e]
    simp only [Int.cast_one, mul_one, one_mul]
    rw [abs_of_nonneg hA]
    exact hb


/-! ## Claims on the parser -/

theorem AngleText.digits_of_wellFormed (t : AngleText) (h : t.wellFormed = true) :
    t.whole.all isdigit = true ∧ t.mins.all isdigit = true ∧ t.secs.all isdigit = true := by
  simp only [AngleText.wellFormed, AngleText.okFraction, AngleText.okSeconds,
    AngleText.okMinutes, Bool.and_eq_true, decide_eq_true_eq] at h
  have hS := h.1.1.2
  have hM := h.1.1.1.1.1.2
  have hW := h.1.1.1.1.1.1.1.1.2
  obtain ⟨_, _, _, _, _, h1⟩ := digitRun_cons hW
  obtain ⟨_, _, _, _, _, h2⟩ := digitRun_cons hM
  obtain ⟨_, _, _, _, _, h3⟩ := digitRun_cons hS
  exact ⟨h1, h2, h3⟩

theorem angleDone_rvalue (sign type number1 number2 number3 : Int) (fraction : ℚ)
    (bp : List Char) :
    (angleDone sign type number1 number2 number3 fraction bp).rvalue
      = fl ((if type = 1 then
              fl (fl ((number1 : ℚ)
                + fl (fl ((number2 : ℚ) + fl (fl ((number3 : ℚ) + fraction) / 60)) / 60)) / 360)
            else
              fl (fl ((number1 : ℚ)
                + fl (fl ((number2 : ℚ) + fl (fl ((number3 : ℚ) + fraction) / 60)) / 60)) / 24))
          * (sign : ℚ)) :=
  rfl

theorem fl_one : fl 1 = 1 := by
  rw [fl_eval _ 0 (by norm_num) (by norm_num) (by norm_num) (by norm_num)]
  norm_num [roundHalfEven]

/-- The double returned for `"1d0m0s"`: the double nearest to 1/360. -/
theorem oneDegree_rvalue :
    (convert2angle oneDegree.text).rvalue = 6405119470038039 / 2305843009213693952 := by
  have h := AngleText.text_done oneDegree [] (by decide)
  rw [List.append_nil] at h
  rw [h, angleDone_rvalue]
  have a1 : oneDegree.sign = 1 := by decide
  have a2 : oneDegree.unitType = 1 := by decide
  have a3 : wrapDigits 0 oneDegree.whole = 1 := by decide
  have a4 : wrapDigits 0 oneDegree.mins = 0 := by decide
  have a5 : wrapDigits 0 oneDegree.secs = 0 := by decide
  have a6 : oneDegree.doubleFraction = 0 := rfl
  rw [a1, a2, a3, a4, a5, a6, if_pos rfl]
  simp only [Int.cast_zero, Int.cast_one, add_zero, zero_add, zero_div, fl_zero, mul_one]
  have e2 : fl (1 / 360) = 6405119470038039 / 2305843009213693952 := by
    rw [fl_eval _ (-9) (by norm_num) (by norm_num) (by norm_num) (by norm_num)]
    norm_num [roundHalfEven]
  rw [fl_one, e2]
  rw [fl_eval _ (-9) (by norm_num) (by norm_num) (by norm_num) (by norm_num)]
  norm_num [roundHalfEven]

/-- The double returned for `"0d0m0.3s"`: the fraction is the double `3 * 0.1`, one unit in
the last place above the double nearest to 0.3. -/
theorem threeTenths_rvalue :
    (convert2angle threeTenths.text).rvalue
      = 4372561558212635 / 18889465931478580854784 := by
  have h := AngleText.text_done threeTenths [] (by decide)
  rw [List.append_nil] at h
  rw [h, angleDone_rvalue]
  have a1 : threeTenths.sign = 1 := by decide
  have a2 : threeTenths.unitType = 1 := by decide
  have a3 : wrapDigits 0 threeTenths.whole = 0 := by decide
  have a4 : wrapDigits 0 threeTenths.mins = 0 := by decide
  have a5 : wrapDigits 0 threeTenths.secs = 0 := by decide
  have a6 : threeTenths.doubleFraction = fl (0 + fl (((3 : Int) : ℚ) * fl (1 / 10))) := rfl
  rw [a1, a2, a3, a4, a5, a6, if_pos rfl]
  simp only [Int.cast_zero, Int.cast_one, Int.cast_ofNat, add_zero, zero_add, zero_div, fl_zero,
    mul_one]
  have e1 : fl (1 / 10) = 3602879701896397 / 36028797018963968 := by
    rw [fl_eval _ (-4) (by norm_num) (by norm_num) (by norm_num) (by norm_num)]
    norm_num [roundHalfEven]
  rw [e1]
  have e2 : fl (3 * (3602879701896397 / 36028797018963968)) = 1351079888211149 / 4503599627370496 := by
    rw [fl_eval _ (-2) (by norm_num) (by norm_num) (by norm_num) (by norm_num)]
    norm_num [roundHalfEven]
  rw [e2]
  have e3 : fl (1351079888211149 / 4503599627370496) = 1351079888211149 / 4503599627370496 := by
    rw [fl_eval _ (-2) (by norm_num) (by norm_num) (by norm_num) (by norm_num)]
    norm_num [roundHalfEven]
  rw [e3]
  have e4 : fl (1351079888211149 / 4503599627370496) = 1351079888211149 / 4503599627370496 := by
    rw [fl_eval _ (-2) (by norm_num) (by norm_num) (by norm_num) (by norm_num)]
    norm_num [roundHalfEven]
  rw [e4]
  have e5 : fl ((1351079888211149 / 4503599627370496) / 60) = 1441151880758559 / 288230376151711744 := by
    rw [fl_eval _ (-8) (by norm_num) (by norm_num) (by norm_num) (by norm_num)]
    norm_num [roundHalfEven]
  rw [e5]
  have e6 : fl (1441151880758559 / 288230376151711744) = 1441151880758559 / 288230376151711744 := by
    rw [fl_eval _ (-8) (by norm_num) (by norm_num) (by norm_num) (by norm_num)]
    norm_num [roundHalfEven]
  rw [e6]
  have e7 : fl ((1441151880758559 / 288230376151711744) / 60) = 3074457345618259 / 36893488147419103232 := by
    rw [fl_eval _ (-14) (by norm_num) (by norm_num) (by norm_num) (by norm_num)]
    norm_num [roundHalfEven]
  rw [e7]
  have e8 : fl (3074457345618259 / 36893488147419103232) = 3074457345618259 / 36893488147419103232 := by
    rw [fl_eval _ (-14) (by norm_num) (by norm_num) (by norm_num) (by norm_num)]
    norm_num [roundHalfEven]
  rw [e8]
  have e9 : fl ((3074457345618259 / 36893488147419103232) / 360) = 4372561558212635 / 18889465931478580854784 := by
    rw [fl_eval _ (-23) (by norm_num) (by norm_num) (by norm_num) (by norm_num)]
    norm_num [roundHalfEven]
  rw [e9]
  have e10 : fl (4372561558212635 / 18889465931478580854784) = 4372561558212635 / 18889465931478580854784 := by
    rw [fl_eval _ (-23) (by norm_num) (by norm_num) (by norm_num) (by norm_num)]
    norm_num [roundHalfEven]
  rw [e10]

/-- The value of the rounded formula at the sample text `" -123H 75M\t6.789S"`. -/
theorem sampleAngle_doubleValue :
    sampleAngle.doubleValue = -5828966111865431 / 1125899906842624 := by
  have a1 : sampleAngle.sign = -1 := by decide
  have a2 : sampleAngle.turn = 24 := by simp [AngleText.turn, sampleAngle]
  have a3 : digitsValue sampleAngle.whole = 123 := by decide
  have a4 : digitsValue sampleAngle.mins = 75 := by decide
  have a5 : digitsValue sampleAngle.secs = 6 := by decide
  have a6 : sampleAngle.doubleFraction
      = fl (fl (fl (0 + fl (((7 : Int) : ℚ) * fl (1 / 10)))
            + fl (((8 : Int) : ℚ) * fl (fl (1 / 10) / 10)))
          + fl (((9 : Int) : ℚ) * fl (fl (fl (1 / 10) / 10) / 10))) := rfl
  unfold AngleText.doubleValue
  rw [a1, a2, a3, a4, a5, a6, neg_div]
  simp only [Int.cast_neg, Int.cast_one, Int.cast_ofNat, Nat.cast_ofNat, zero_add, mul_neg,
    mul_one, fl_neg, neg_inj]
  have e1 : fl (1 / 10) = 3602879701896397 / 36028797018963968 := by
    rw [fl_eval _ (-4) (by norm_num) (by norm_num) (by norm_num) (by norm_num)]
    norm_num [roundHalfEven]
  rw [e1]
  have e2 : fl (7 * (3602879701896397 / 36028797018963968)) = 6305039478318695 / 9007199254740992 := by
    rw [fl_eval _ (-1) (by norm_num) (by norm_num) (by norm_num) (by norm_num)]
    norm_num [roundHalfEven]
  rw [e2]
  have e3 : fl (6305039478318695 / 9007199254740992) = 6305039478318695 / 9007199254740992 := by
    rw [fl_eval _ (-1) (by norm_num) (by norm_num) (by norm_num) (by norm_num)]
    norm_num [roundHalfEven]
  rw [e3]
  have e4 : fl ((3602879701896397 / 36028797018963968) / 10) = 5764607523034235 / 576460752303423488 := by
    rw [fl_eval _ (-7) (by norm_num) (by norm_num) (by norm_num) (by norm_num)]
    norm_num [roundHalfEven]
  rw [e4]
  have e5 : fl (8 * (5764607523034235 / 576460752303423488)) = 5764607523034235 / 72057594037927936 := by
    rw [fl_eval _ (-4) (by norm_num) (by norm_num) (by norm_num) (by norm_num)]
    norm_num [roundHalfEven]
  rw [e5]
  have e6 : fl ((6305039478318695 / 9007199254740992) + (5764607523034235 / 72057594037927936)) = 3512807709348987 / 4503599627370496 := by
    rw [fl_eval _ (-1) (by norm_num) (by norm_num) (by norm_num) (by norm_num)]
    norm_num [roundHalfEven]
  rw [e6]
  have e7 : fl ((5764607523034235 / 576460752303423488) / 10) = 1152921504606847 / 1152921504606846976 := by
    rw [fl_eval _ (-10) (by norm_num) (by norm_num) (by norm_num) (by norm_num)]
    norm_num [roundHalfEven]
  rw [e7]
  have e8 : fl (9 * (1152921504606847 / 1152921504606846976)) = 1297036692682703 / 144115188075855872 := by
    rw [fl_eval _ (-7) (by norm_num) (by norm_num) (by norm_num) (by norm_num)]
    norm_num [roundHalfEven]
  rw [e8]
  have e9 : fl ((3512807709348987 / 4503599627370496) + (1297036692682703 / 144115188075855872)) = 7106680211990643 / 9007199254740992 := by
    rw [fl_eval _ (-1) (by norm_num) (by norm_num) (by norm_num) (by norm_num)]
    norm_num [roundHalfEven]
  rw [e9]
  have e10 : fl (6 + (7106680211990643 / 9007199254740992)) = 3821867233777287 / 562949953421312 := by
    rw [fl_eval _ (2) (by norm_num) (by norm_num) (by norm_num) (by norm_num)]
    norm_num [roundHalfEven]
  rw [e10]
  have e11 : fl ((3821867233777287 / 562949953421312) / 60) = 4076658382695773 / 36028797018963968 := by
    rw [fl_eval _ (-4) (by norm_num) (by norm_num) (by norm_num) (by norm_num)]
    norm_num [roundHalfEven]
  rw [e11]
  have e12 : fl (75 + (4076658382695773 / 36028797018963968)) = 5285618036728503 / 70368744177664 := by
    rw [fl_eval _ (6) (by norm_num) (by norm_num) (by norm_num) (by norm_num)]
    norm_num [roundHalfEven]
  rw [e12]
  have e13 : fl ((5285618036728503 / 70368744177664) / 60) = 5637992572510403 / 4503599627370496 := by
    rw [fl_eval _ (0) (by norm_num) (by norm_num) (by norm_num) (by norm_num)]
    norm_num [roundHalfEven]
  rw [e13]
  have e14 : fl (123 + (5637992572510403 / 4503599627370496)) = 8743449167798147 / 70368744177664 := by
    rw [fl_eval _ (6) (by norm_num) (by norm_num) (by norm_num) (by norm_num)]
    norm_num [roundHalfEven]
  rw [e14]
  have e15 : fl ((8743449167798147 / 70368744177664) / 24) = 5828966111865431 / 1125899906842624 := by
    rw [fl_eval _ (2) (by norm_num) (by norm_num) (by norm_num) (by norm_num)]
    norm_num [roundHalfEven]
  rw [e15]
  have e16 : fl (5828966111865431 / 1125899906842624) = 5828966111865431 / 1125899906842624 := by
    rw [fl_eval _ (2) (by norm_num) (by norm_num) (by norm_num) (by norm_num)]
    norm_num [roundHalfEven]
  rw [e16]

/-- C1, as stated, fails: the value is computed in doubles and is not exactly the value of
the formula. The text `"1d0m0s"` is accepted and the formula gives 1/360, which no double
equals; the code returns the double `6405119470038039 / 2^61`. On `"0d0m0.3s"` (value
1/4320000) the fraction is accumulated as `3 * 0.1`, which is not the double nearest to
0.3, and the double returned, `8745123116425270 / 2^75`, is not even the double nearest to
the value of the formula, `8745123116425269 / 2^75`. -/
theorem convert2angle_value_rounded :
    (oneDegree.wellFormed = true ∧ oneDegree.fitsInt = true
        ∧ oneDegree.text = "1d0m0s".toList ∧ oneDegree.value = 1 / 360
        ∧ (convert2angle "1d0m0s".toList).rerr = 0
        ∧ (convert2angle "1d0m0s".toList).rvalue = 6405119470038039 / 2305843009213693952
        ∧ (convert2angle oneDegree.text).rvalue ≠ oneDegree.value)
      ∧ (threeTenths.wellFormed = true ∧ threeTenths.fitsInt = true
        ∧ threeTenths.text = "0d0m0.3s".toList ∧ threeTenths.value = 1 / 4320000
        ∧ (convert2angle "0d0m0.3s".toList).rerr = 0
        ∧ (convert2angle "0d0m0.3s".toList).rvalue
            = 4372561558212635 / 18889465931478580854784
        ∧ fl threeTenths.value = 8745123116425269 / 37778931862957161709568
        ∧ (convert2angle threeTenths.text).rvalue ≠ threeTenths.value
        ∧ (convert2angle threeTenths.text).rvalue ≠ fl threeTenths.value) := by
  have t1 : oneDegree.text = "1d0m0s".toList := by decide
  have t3 : threeTenths.text = "0d0m0.3s".toList := by decide
  have v1 : oneDegree.value = 1 / 360 := by
    simp [AngleText.value, AngleText.sign, AngleText.turn, AngleText.fraction, oneDegree,
      digitsValue]
  have v3 : threeTenths.value = 1 / 4320000 := by
    simp [AngleText.value, AngleText.sign, AngleText.turn, AngleText.fraction, threeTenths,
      digitsValue, fractionValue]
    norm_num
  have f3 : fl threeTenths.value = 8745123116425269 / 37778931862957161709568 := by
    rw [v3, fl_eval _ (-23) (by norm_num) (by norm_num) (by norm_num) (by norm_num)]
    norm_num [roundHalfEven]
  have r1 := oneDegree_rvalue
  have r3 := threeTenths_rvalue
  refine ⟨⟨by decide, by decide, t1, v1, by decide, ?_, ?_⟩,
    ⟨by decide, by decide, t3, v3, by decide, ?_, f3, ?_, ?_⟩⟩
  · rw [← t1]
    exact r1
  · rw [r1, v1]
    norm_num
  · rw [← t3]
    exact r3
  · rw [r3, v3]
    norm_num
  · rw [r3, f3]
    norm_num

/-- C1, amended: every text of the grammar `ws [+-] W (d|h) ws M m ws S [. F] s` (letters
in either case) whose digit strings fit a C `int` is accepted by `convert2angle`, which sets
`*rerr` to 0 and returns the formula `((W + (M + (S + f)/60)/60) / R) * sign` evaluated in
doubles, every operation rounded to the nearest double, with `R` = 360 for degrees and 24
for hours, `sign` = -1 only when `-` was given, and `f` the fraction accumulated digit by
digit (`f += digit * part; part /= 10.0`, from `f = 0`, `part = 0.1`); the minutes are not
range checked. For a fraction of `n <= 1000` digits the value returned differs from the
exact value `v = sign * (W + (M + (S + 0.F)/60)/60) / R` by at most
`(n + 9) * 2^-52 * |v| + (5 n^2 + 6 n + 7) * 2^-1074`. -/
theorem convert2angle_grammar_double (t : AngleText) (hwf : t.wellFormed = true)
    (hfit : t.fitsInt = true) :
    (convert2angle t.text).accepted = true ∧ (convert2angle t.text).rerr = 0
      ∧ (convert2angle t.text).rvalue = t.doubleValue
      ∧ (t.fracDigits ≤ 1000 →
          |(convert2angle t.text).rvalue - t.value|
            ≤ ((t.fracDigits : ℚ) + 9) / 2 ^ 52 * |t.value|
              + (5 * (t.fracDigits : ℚ) ^ 2 + 6 * (t.fracDigits : ℚ) + 7) / 2 ^ 1074) := by
  have h := AngleText.text_done t [] hwf
  rw [List.append_nil] at h
  obtain ⟨hW, hM, hS⟩ := t.digits_of_wellFormed hwf
  simp only [AngleText.fitsInt, Bool.and_eq_true, decide_eq_true_eq] at hfit
  obtain ⟨⟨f1, f2⟩, f3⟩ := hfit
  rw [h, wrapDigits_eq_digitsValue _ hW f1, wrapDigits_eq_digitsValue _ hM f2,
    wrapDigits_eq_digitsValue _ hS f3]
  have hv : (angleDone t.sign t.unitType (digitsValue t.whole) (digitsValue t.mins)
      (digitsValue t.secs) t.doubleFraction []).rvalue = t.doubleValue := by
    rw [angleDone_rvalue]
    unfold AngleText.doubleValue AngleText.unitType AngleText.turn
    by_cases hu : t.unit = 'd' ∨ t.unit = 'D'
    · simp only [if_pos hu, if_pos, Int.cast_natCast]
    · simp only [if_neg hu, if_neg, Int.cast_natCast]
      norm_num
  refine ⟨rfl, rfl, hv, ?_⟩
  intro hn
  rw [hv]
  exact doubleValue_err t hwf hn

/-- C1 (amended) at the sample text `" -123H 75M\t6.789S"`, whose minutes exceed 59 and whose
fraction has 3 digits: the double returned is `-5828966111865431 / 2^50`. -/
theorem convert2angle_grammar_double_witness :
    sampleAngle.wellFormed = true ∧ sampleAngle.fitsInt = true
      ∧ ((convert2angle sampleAngle.text).accepted = true
        ∧ (convert2angle sampleAngle.text).rerr = 0
        ∧ (convert2angle sampleAngle.text).rvalue = sampleAngle.doubleValue
        ∧ (sampleAngle.fracDigits ≤ 1000 →
            |(convert2angle sampleAngle.text).rvalue - sampleAngle.value|
              ≤ ((sampleAngle.fracDigits : ℚ) + 9) / 2 ^ 52 * |sampleAngle.value|
                + (5 * (sampleAngle.fracDigits : ℚ) ^ 2 + 6 * (sampleAngle.fracDigits : ℚ) + 7)
                    / 2 ^ 1074))
      ∧ sampleAngle.fracDigits = 3
      ∧ sampleAngle.doubleValue = -5828966111865431 / 1125899906842624 :=
  ⟨by decide, by decide, convert2angle_grammar_double sampleAngle (by decide) (by decide),
    by decide, sampleAngle_doubleValue⟩


theorem convert2position_x (after : List Char) : convert2position ['x'] 1 after = (0, 0, 0) := by
  simp [convert2position, convert2angle, state0, case1, isspace, isdigit, angleErr,
    angleErrEnd]

theorem fl_half_scaled : fl (1 / 2 * 65526) = 32763 := by
  rw [fl_eval _ 14 (by norm_num) (by norm_num) (by norm_num) (by norm_num)]
  norm_num [roundHalfEven]

/-- C2: `convert2position` returns 0 on every input, also when a sub-parse fails: on the
text `"x"` the first sub-parse fails in state 1, yet the return value is 0 and
`cmd_gotoposition` goes on to build and send the frame `"R0000,0000"`. -/
theorem convert2position_never_fails :
    (∀ (buf : List Char) (type : Int) (after : List Char),
        (convert2position buf type after).1 = 0)
      ∧ (convert2angle ['x']).accepted = false ∧ (convert2angle ['x']).rerr = 1
      ∧ (∀ after : List Char, convert2position ['x'] 1 after = (0, 0, 0))
      ∧ ∀ after : List Char, cmd_gotoposition 'R' ['x'] after
          = some ['R', '0', '0', '0', '0', ',', '0', '0', '0', '0'] := by
  refine ⟨fun _ _ _ => rfl, by decide, by decide, convert2position_x, ?_⟩
  intro after
  have hf : lowFrame 'R' 0 0 = ['R', '0', '0', '0', '0', ',', '0', '0', '0', '0'] := by
    simp only [lowFrame, zero_mul, fl_zero]
    norm_num [truncToInt]
    simp [fmtHex, digitString, digitsFrom, hexChar, List.leftpad]
  simp only [cmd_gotoposition, convert2position_x after]
  simpa using hf

/-- C3: the low precision frame scales its second field by 65526, not 65536: for the
argument `"0h0m0s180d0m0s"` (values 0 and 1/2) `cmd_gotoposition` and `cmd_sync` build
`"R0000,7FFB"` and `"S0000,7FFB"`, where scale 65536 on both fields gives `"R0000,8000"`. -/
theorem lowFrame_second_scale :
    (∀ after : List Char,
        cmd_gotoposition 'R' "0h0m0s180d0m0s".toList after = some "R0000,7FFB".toList)
      ∧ (∀ after : List Char,
        cmd_sync 'S' "0h0m0s180d0m0s".toList after = some "S0000,7FFB".toList)
      ∧ lowFrame 'R' 0 (1 / 2) = "R0000,7FFB".toList
      ∧ ['R'] ++ fmtHex 4 ((truncToInt (0 * 65536)) % 65536).toNat ++ [',']
          ++ fmtHex 4 ((truncToInt ((1 / 2 : ℚ) * 65536)) % 65536).toNat
        = "R0000,8000".toList := by
  have hp : ∀ after : List Char,
      convert2position "0h0m0s180d0m0s".toList 1 after = (0, 0, 1 / 2) := by
    intro after
    have e1 : fl 180 = 180 := by
      rw [fl_eval _ 7 (by norm_num) (by norm_num) (by norm_num) (by norm_num)]
      norm_num [roundHalfEven]
    have e2 : fl (180 / 360) = 1 / 2 := by
      rw [fl_eval _ (-1) (by norm_num) (by norm_num) (by norm_num) (by norm_num)]
      norm_num [roundHalfEven]
    have e3 : fl (1 / 2) = 1 / 2 := by
      rw [fl_eval _ (-1) (by norm_num) (by norm_num) (by norm_num) (by norm_num)]
      norm_num [roundHalfEven]
    have hv : fl (fl (fl 180 / 360)) = 2⁻¹ := by
      rw [e1, e2, e3]
      norm_num
    simp [convert2position, convert2angle, state0, state1, case1, state2, state3, state4,
      state5, state6, state7, state8, scanNumber, angleDone, isdigit, isspace, digitVal,
      wrap32, fl_zero]
    exact hv
  have hf : lowFrame 'R' 0 (1 / 2) = "R0000,7FFB".toList := by
    simp only [lowFrame, fl_half_scaled]
    norm_num [truncToInt]
    simp [fmtHex, digitString, digitsFrom, hexChar, List.leftpad]
  have hs : lowFrame 'S' 0 (1 / 2) = "S0000,7FFB".toList := by
    simp only [lowFrame, fl_half_scaled]
    norm_num [truncToInt]
    simp [fmtHex, digitString, digitsFrom, hexChar, List.leftpad]
  refine ⟨?_, ?_, hf, ?_⟩
  · intro after
    simp only [cmd_gotoposition, hp after]
    simpa using hf
  · intro after
    simp only [cmd_sync, hp after]
    simpa using hs
  · norm_num [truncToInt]
    simp [fmtHex, digitString, digitsFrom, hexChar, List.leftpad]

/-- C6: a text that lacks its `m` or `s` terminator is rejected with the code of the stage
that failed and a returned value of 0: code 5 when the text stops after the minute digits
or goes on with a character other than `m`/`M`, code 8 when it stops after the integer
seconds digits or goes on with a character other than `s`/`S`/`.`, code 9 when it stops
after the fraction digits or goes on with a character other than `s`/`S`. -/
theorem convert2angle_missing_terminator :
    (∀ (t : AngleText) (tail : List Char), t.okMinutes = true →
        headNot (fun c => isdigit c || decide (c = 'm') || decide (c = 'M')) tail = true →
        (convert2angle (t.toMinutes ++ tail)).rerr = 5
          ∧ (convert2angle (t.toMinutes ++ tail)).rvalue = 0
          ∧ (convert2angle (t.toMinutes ++ tail)).accepted = false)
    ∧ (∀ (t : AngleText) (tail : List Char), t.okSeconds = true →
        headNot (fun c => isdigit c || decide (c = 's') || decide (c = 'S')
          || decide (c = '.')) tail = true →
        (convert2angle (t.toSeconds ++ tail)).rerr = 8
          ∧ (convert2angle (t.toSeconds ++ tail)).rvalue = 0
          ∧ (convert2angle (t.toSeconds ++ tail)).accepted = false)
    ∧ (∀ (t : AngleText) (tail : List Char), t.okFraction = true → t.frac.isSome = true →
        headNot (fun c => isdigit c || decide (c = 's') || decide (c = 'S')) tail = true →
        (convert2angle (t.toFraction ++ tail)).rerr = 9
          ∧ (convert2angle (t.toFraction ++ tail)).rvalue = 0
          ∧ (convert2angle (t.toFraction ++ tail)).accepted = false) := by
  refine ⟨?_, ?_, ?_⟩
  · intro t tail hok htail
    have hd : headNot isdigit tail = true := by
      cases tail with
      | nil => rfl
      | cons c bp =>
        simp only [headNot, Bool.not_eq_true', Bool.or_eq_false_iff] at htail ⊢
        exact htail.1.1
    rw [AngleText.toMinutes_state5 t tail hok hd]
    cases tail with
    | nil => exact ⟨rfl, rfl, rfl⟩
    | cons c bp =>
      simp only [headNot, Bool.not_eq_true', Bool.or_eq_false_iff,
        decide_eq_false_iff_not] at htail
      have hc : c ≠ 'm' ∧ c ≠ 'M' := ⟨htail.1.2, htail.2⟩
      simp only [state5]
      rw [if_pos hc]
      exact ⟨rfl, rfl, rfl⟩
  · intro t tail hok htail
    have hd : headNot isdigit tail = true := by
      cases tail with
      | nil => rfl
      | cons c bp =>
        simp only [headNot, Bool.not_eq_true', Bool.or_eq_false_iff] at htail ⊢
        exact htail.1.1.1
    rw [AngleText.toSeconds_state8 t tail hok hd]
    cases tail with
    | nil => exact ⟨rfl, rfl, rfl⟩
    | cons c bp =>
      simp only [headNot, Bool.not_eq_true', Bool.or_eq_false_iff,
        decide_eq_false_iff_not] at htail
      have hs : ¬(c = 's' ∨ c = 'S') := fun h => h.elim htail.1.1.2 htail.1.2
      have hp : c ≠ '.' := htail.2
      simp only [state8]
      rw [if_neg hs, if_pos hp]
      exact ⟨rfl, rfl, rfl⟩
  · intro t tail hok hsome htail
    simp only [AngleText.okFraction, Bool.and_eq_true] at hok
    obtain ⟨hsec, hF⟩ := hok
    cases hfr : t.frac with
    | none => simp [hfr] at hsome
    | some ds =>
      rw [hfr] at hF
      have hd : headNot isdigit tail = true := by
        cases tail with
        | nil => rfl
        | cons c bp =>
          simp only [headNot, Bool.not_eq_true', Bool.or_eq_false_iff] at htail ⊢
          exact htail.1.1
      have e : t.toFraction ++ tail = t.toSeconds ++ ('.' :: (ds ++ tail)) := by
        simp [AngleText.toFraction, hfr, List.append_assoc]
      have hf := scanFraction_append ds tail 0 (fl (1 / 10)) hF hd
      rw [e, AngleText.toSeconds_state8 t _ hsec (headNot_cons_of _ (by decide))]
      have e9 : state8 t.sign t.unitType (wrapDigits 0 t.whole) (wrapDigits 0 t.mins)
          (wrapDigits 0 t.secs) ('.' :: (ds ++ tail))
          = state9 t.sign t.unitType (wrapDigits 0 t.whole) (wrapDigits 0 t.mins)
            (wrapDigits 0 t.secs) (ds ++ tail) := by
        simp [state8]
      rw [e9]
      unfold state9
      rw [hf]
      cases tail with
      | nil => exact ⟨rfl, rfl, rfl⟩
      | cons c bp =>
        simp only [headNot, Bool.not_eq_true', Bool.or_eq_false_iff,
          decide_eq_false_iff_not] at htail
        have hs : ¬(c = 's' ∨ c = 'S') := fun h => h.elim htail.1.2 htail.2
        simp only [if_neg hs]
        exact ⟨rfl, rfl, rfl⟩

/-- C6 at `" -123H 75"` followed by `x`, at `" -123H 75M\t6"` at the end of the text, and
at `" -123H 75M\t6.789"` followed by a space. -/
theorem convert2angle_missing_terminator_witness :
    (sampleAngle.okMinutes = true
      ∧ (convert2angle (sampleAngle.toMinutes ++ ['x'])).rerr = 5
      ∧ (convert2angle (sampleAngle.toMinutes ++ ['x'])).rvalue = 0
      ∧ (convert2angle (sampleAngle.toMinutes ++ ['x'])).accepted = false)
    ∧ (sampleAngle.okSeconds = true
      ∧ (convert2angle (sampleAngle.toSeconds ++ [])).rerr = 8
      ∧ (convert2angle (sampleAngle.toSeconds ++ [])).rvalue = 0
      ∧ (convert2angle (sampleAngle.toSeconds ++ [])).accepted = false)
    ∧ (sampleAngle.okFraction = true
      ∧ (convert2angle (sampleAngle.toFraction ++ [' '])).rerr = 9
      ∧ (convert2angle (sampleAngle.toFraction ++ [' '])).rvalue = 0
      ∧ (convert2angle (sampleAngle.toFraction ++ [' '])).accepted = false) :=
  ⟨⟨by decide, convert2angle_missing_terminator.1 sampleAngle ['x'] (by decide) (by decide)⟩,
    ⟨by decide, convert2angle_missing_terminator.2.1 sampleAngle [] (by decide) (by decide)⟩,
    ⟨by decide,
      convert2angle_missing_terminator.2.2 sampleAngle [' '] (by decide) (by decide)
        (by decide)⟩⟩


/-- C7: for two complete well-formed angle texts `a` and `b`, `convert2position` on `a ++ b`
stores in `*rvalue1` what `convert2angle` returns for `a` alone and in `*rvalue2` what it
returns for `b` alone; and whatever follows a well-formed angle, `convert2angle` succeeds
with `*next` equal to the suffix after the terminating `s`. -/
theorem convert2position_concat (a b : AngleText) (type : Int) (after : List Char)
    (ha : a.wellFormed = true) (hb : b.wellFormed = true) :
    (convert2position (a.text ++ b.text) type after).2.1 = (convert2angle a.text).rvalue
      ∧ (convert2position (a.text ++ b.text) type after).2.2 = (convert2angle b.text).rvalue
      ∧ (convert2angle (a.text ++ b.text)).next = b.text
      ∧ (convert2angle a.text).accepted = true ∧ (convert2angle b.text).accepted = true
      ∧ ∀ rest : List Char, (convert2angle (a.text ++ rest)).accepted = true
          ∧ (convert2angle (a.text ++ rest)).rerr = 0
          ∧ (convert2angle (a.text ++ rest)).next = rest := by
  have h1 := AngleText.text_done a b.text ha
  have h2 := AngleText.text_done a [] ha
  have h3 := AngleText.text_done b [] hb
  rw [List.append_nil] at h2 h3
  refine ⟨?_, ?_, ?_, ?_, ?_, ?_⟩
  · show (convert2angle (a.text ++ b.text)).rvalue = (convert2angle a.text).rvalue
    rw [h1, h2]
    rfl
  · show (convert2angle (if (convert2angle (a.text ++ b.text)).past = true then after
        else (convert2angle (a.text ++ b.text)).next)).rvalue = (convert2angle b.text).rvalue
    rw [h1]
    simp only [angleDone, Bool.false_eq_true, if_false]
  · rw [h1]
    rfl
  · rw [h2]
    rfl
  · rw [h3]
    rfl
  · intro rest
    rw [AngleText.text_done a rest ha]
    exact ⟨rfl, rfl, rfl⟩

/-- C7 at the texts `" -123H 75M\t6.789S"` and `"10d30m0s"`. -/
theorem convert2position_concat_witness :
    sampleAngle.wellFormed = true ∧ sampleAngle2.wellFormed = true
      ∧ (convert2position (sampleAngle.text ++ sampleAngle2.text) 1 []).2.1
          = (convert2angle sampleAngle.text).rvalue
      ∧ (convert2position (sampleAngle.text ++ sampleAngle2.text) 1 []).2.2
          = (convert2angle sampleAngle2.text).rvalue
      ∧ (convert2angle (sampleAngle.text ++ sampleAngle2.text)).next = sampleAngle2.text
      ∧ (convert2angle sampleAngle.text).accepted = true
      ∧ (convert2angle sampleAngle2.text).accepted = true
      ∧ ∀ rest : List Char, (convert2angle (sampleAngle.text ++ rest)).accepted = true
          ∧ (convert2angle (sampleAngle.text ++ rest)).rerr = 0
          ∧ (convert2angle (sampleAngle.text ++ rest)).next = rest :=
  ⟨by decide, by decide,
    convert2position_concat sampleAngle sampleAngle2 1 [] (by decide) (by decide)⟩

/-- C8, as stated, fails where the leading digits wrap to `INT_MIN`: `"2147483648d0m0s"`
starts with a digit and is accepted with `*dh = -2147483648`, and with a `-` in front it
is accepted with the same `*dh`, not the negation. -/
theorem convert2angle_minus_overflow :
    isdigit '2' = true
      ∧ (convert2angle "2147483648d0m0s".toList).accepted = true
      ∧ (convert2angle "2147483648d0m0s".toList).dh = some (-2147483648)
      ∧ (convert2angle "-2147483648d0m0s".toList).dh = some (-2147483648)
      ∧ (convert2angle "-2147483648d0m0s".toList).dh
          ≠ (convert2angle "2147483648d0m0s".toList).dh.map (fun x => -x) := by
  decide

/-- C8, amended: for a text that starts with a digit, is accepted, and whose stored `*dh`
and `*min` are not `INT_MIN` (so in particular when its digit strings fit a C `int`), the
text with a `-` in front is accepted too, and its returned value and each of `*dh`, `*min`,
`*sec` are the negations of those for the text itself. -/
theorem convert2angle_minus_negates (c : Char) (bp : List Char) (hc : isdigit c = true)
    (hacc : (convert2angle (c :: bp)).accepted = true)
    (hdh : (convert2angle (c :: bp)).dh ≠ some (-2147483648))
    (hmin : (convert2angle (c :: bp)).min ≠ some (-2147483648)) :
    (convert2angle ('-' :: c :: bp)).accepted = true
      ∧ (convert2angle ('-' :: c :: bp)).rerr = (convert2angle (c :: bp)).rerr
      ∧ (convert2angle ('-' :: c :: bp)).rvalue = -(convert2angle (c :: bp)).rvalue
      ∧ (convert2angle ('-' :: c :: bp)).dh = (convert2angle (c :: bp)).dh.map (fun x => -x)
      ∧ (convert2angle ('-' :: c :: bp)).min = (convert2angle (c :: bp)).min.map (fun x => -x)
      ∧ (convert2angle ('-' :: c :: bp)).sec
          = (convert2angle (c :: bp)).sec.map (fun x => -x) := by
  obtain ⟨h1, -, h3, h4, h5, h6, h7, h8⟩ := signFlip_convert2angle c bp hc
  have e4 := h4.trans (map_wrap32_neg _ h7 hdh)
  have e5 := h5.trans (map_wrap32_neg _ h8 hmin)
  refine ⟨?_, h1, h3, e4, e5, h6⟩
  simp only [AngleResult.accepted] at hacc ⊢
  rw [e4, Option.isSome_map']
  exact hacc

/-- C8 (amended) at `"10d30m0s"` against `"-10d30m0s"`. -/
theorem convert2angle_minus_negates_witness :
    isdigit '1' = true ∧ (convert2angle "10d30m0s".toList).accepted = true
      ∧ (convert2angle "-10d30m0s".toList).accepted = true
      ∧ (convert2angle "-10d30m0s".toList).rerr = (convert2angle "10d30m0s".toList).rerr
      ∧ (convert2angle "-10d30m0s".toList).rvalue = -(convert2angle "10d30m0s".toList).rvalue
      ∧ (convert2angle "-10d30m0s".toList).dh
          = (convert2angle "10d30m0s".toList).dh.map (fun x => -x)
      ∧ (convert2angle "-10d30m0s".toList).min
          = (convert2angle "10d30m0s".toList).min.map (fun x => -x)
      ∧ (convert2angle "-10d30m0s".toList).sec
          = (convert2angle "10d30m0s".toList).sec.map (fun x => -x) :=
  ⟨by decide, by decide,
    convert2angle_minus_negates '1' "0d30m0s".toList (by decide) (by decide) (by decide)
      (by decide)⟩


/-! ## Hexadecimal fields -/

theorem isHex_iff (c : Char) :
    isHex c = true ↔ (48 ≤ c.toNat ∧ c.toNat ≤ 57) ∨ (97 ≤ c.toNat ∧ c.toNat ≤ 102)
      ∨ (65 ≤ c.toNat ∧ c.toNat ≤ 70) := by
  unfold isHex hexVal
  split_ifs with h1 h2 h3
  · simp [h1]
  · simp [h2]
  · simp [h3]
  · simp only [Option.isSome_none, Bool.false_eq_true, false_iff]
    tauto

theorem hexVal_lt {c : Char} {d : Nat} (h : hexVal c = some d) : d < 16 := by
  unfold hexVal at h
  split_ifs at h with h1 h2 h3 <;> simp only [Option.some.injEq] at h <;> omega

theorem isspace_of_isHex {c : Char} (h : isHex c = true) : isspace c = false := by
  rw [isHex_iff] at h
  simp only [isspace, Bool.or_eq_false_iff, Bool.and_eq_false_iff, decide_eq_false_iff_not]
  omega

theorem ne_of_isHex {c d : Char} (h : isHex c = true) (hd : isHex d = false) : c ≠ d := by
  rintro rfl
  rw [h] at hd
  exact Bool.noConfusion hd

theorem strtollDigits_append (ds rest : List Char) (acc : Nat) (hds : ds.all isHex = true)
    (hrest : headNot isHex rest = true) :
    strtollDigits acc (ds ++ rest) = ds.foldl (fun n c => n * 16 + (hexVal c).getD 0) acc := by
  induction ds generalizing acc with
  | nil =>
    cases rest with
    | nil => rfl
    | cons c bp =>
      have hc : hexVal c = none := by
        simpa [headNot, isHex] using hrest
      simp [strtollDigits, hc]
  | cons d ds ih =>
    have hd : isHex d = true := by simp [List.all_cons] at hds; exact hds.1
    have hds2 : ds.all isHex = true := by simp [List.all_cons] at hds ⊢; exact hds.2
    obtain ⟨v, hv⟩ := Option.isSome_iff_exists.mp hd
    have hstep : strtollDigits acc (d :: (ds ++ rest)) = strtollDigits (acc * 16 + v) (ds ++ rest) := by
      simp [strtollDigits, hv]
    rw [List.cons_append, hstep, ih _ hds2]
    simp [hv]

theorem hexValue_snoc (ds : List Char) (c : Char) :
    hexValue (ds ++ [c]) = hexValue ds * 16 + (hexVal c).getD 0 := by
  simp [hexValue, List.foldl_append]

theorem hexValue_lt (ds : List Char) (hds : ds.all isHex = true) :
    hexValue ds < 16 ^ ds.length := by
  induction ds using List.reverseRecOn with
  | nil => simp [hexValue]
  | append_singleton ds c ih =>
    have hc : isHex c = true := by
      simp only [List.all_append, List.all_cons, List.all_nil, Bool.and_true,
        Bool.and_eq_true] at hds
      exact hds.2
    have hds2 : ds.all isHex = true := by
      simp only [List.all_append, Bool.and_eq_true] at hds
      exact hds.1
    obtain ⟨v, hv⟩ := Option.isSome_iff_exists.mp hc
    have hlt := hexVal_lt hv
    have ih2 := ih hds2
    rw [hexValue_snoc, hv, List.length_append, List.length_singleton, pow_succ]
    simp only [Option.getD_some]
    omega

theorem skipHexPrefix_of_isHex (c x : Char) (r : List Char) (hx : isHex x = true) :
    skipHexPrefix (c :: x :: r) = c :: x :: r := by
  have h1 : x ≠ 'x' := ne_of_isHex hx (by decide)
  have h2 : x ≠ 'X' := ne_of_isHex hx (by decide)
  cases r with
  | nil => rfl
  | cons d t => simp [skipHexPrefix, h1, h2]

/-- A field of between 2 and 15 hexadecimal digits followed by the end of the text or by a
character that is not one: `strtoll` returns the value of the field. -/
theorem strtoll16_field (ds rest : List Char) (hds : ds.all isHex = true)
    (hlen : 2 ≤ ds.length) (hlen2 : ds.length ≤ 15) (hrest : headNot isHex rest = true) :
    strtoll16 (ds ++ rest) = (hexValue ds : Int) := by
  have hlt := hexValue_lt ds hds
  have hpow : 16 ^ ds.length ≤ 16 ^ 15 := Nat.pow_le_pow_right (by norm_num) hlen2
  have hdig := strtollDigits_append ds rest 0 hds hrest
  match ds, hds, hlen, hdig with
  | c :: x :: tl, hds, _, hdig =>
    have hc : isHex c = true := by simp [List.all_cons] at hds; exact hds.1
    have hx : isHex x = true := by simp [List.all_cons] at hds; exact hds.2.1
    have h1 : c ≠ '-' := ne_of_isHex hc (by decide)
    have h2 : c ≠ '+' := ne_of_isHex hc (by decide)
    have hsp := isspace_of_isHex hc
    have hskip := skipHexPrefix_of_isHex c x (tl ++ rest) hx
    simp only [List.cons_append] at hdig hskip ⊢
    simp only [strtoll16, List.dropWhile_cons, hsp, Bool.false_eq_true, if_false,
      List.head?_cons, Option.some.injEq, h1, h2, or_self, decide_False, hskip, hdig]
    have e : (c :: x :: tl).foldl (fun n c => n * 16 + (hexVal c).getD 0) 0
        = hexValue (c :: x :: tl) := rfl
    have hb : hexValue (c :: x :: tl) < 16 ^ 15 := lt_of_lt_of_le hlt hpow
    rw [e]
    norm_num at hb
    omega


theorem hexRun_iff (w : Nat) (ds : List Char) :
    hexRun w ds = true ↔ ds.length = w ∧ ds.all isHex = true := by
  simp [hexRun]

/-- The `switch` of `decode` on a reply made of a field, one separator character that is
not a hexadecimal digit, a second field, and a tail that does not start with one. -/
theorem decodeFields_reply (cmd : Char) (a b tail : List Char) (sep : Char)
    (hcmd : cmd = 'E' ∨ cmd = 'Z' ∨ cmd = 'e' ∨ cmd = 'z')
    (ha : hexRun (fieldWidth cmd) a = true) (hb : hexRun (fieldWidth cmd) b = true)
    (hsep : isHex sep = false) (htail : headNot isHex tail = true) :
    decodeFields (a ++ sep :: (b ++ tail)) cmd
      = some ((hexValue a : ℚ) / fieldScale cmd, (hexValue b : ℚ) / fieldScale cmd,
          (if cmd = 'E' ∨ cmd = 'e' then 24 else 360), 360) := by
  rw [hexRun_iff] at ha hb
  have hw : fieldWidth cmd = 4 ∨ fieldWidth cmd = 8 := by
    unfold fieldWidth
    split_ifs <;> simp
  have hv0 : strtoll16 (a ++ sep :: (b ++ tail)) = (hexValue a : Int) :=
    strtoll16_field a _ ha.2 (by omega) (by omega) (headNot_cons_of _ hsep)
  have hv1 : strtoll16 (b ++ tail) = (hexValue b : Int) :=
    strtoll16_field b _ hb.2 (by omega) (by omega) htail
  have hdrop : (a ++ sep :: (b ++ tail)).drop (fieldWidth cmd + 1) = b ++ tail := by
    have e : a ++ sep :: (b ++ tail) = (a ++ [sep]) ++ (b ++ tail) := by simp
    rw [e]
    exact List.drop_left' (by simp [ha.1])
  rcases hcmd with rfl | rfl | rfl | rfl
  · have h5 : (a ++ sep :: (b ++ tail)).drop 5 = b ++ tail := hdrop
    simp [decodeFields, fieldScale, hv0, h5, hv1]
  · have h5 : (a ++ sep :: (b ++ tail)).drop 5 = b ++ tail := hdrop
    simp [decodeFields, fieldScale, hv0, h5, hv1]
  · have h9 : (a ++ sep :: (b ++ tail)).drop 9 = b ++ tail := hdrop
    simp [decodeFields, fieldScale, hv0, h9, hv1]
  · have h9 : (a ++ sep :: (b ++ tail)).drop 9 = b ++ tail := hdrop
    simp [decodeFields, fieldScale, hv0, h9, hv1]

theorem fieldScale_eq (cmd : Char) : fieldScale cmd = ((16 ^ fieldWidth cmd : Nat) : ℚ) := by
  unfold fieldScale fieldWidth
  split_ifs <;> norm_num

theorem foldDegrees_range (x : ℚ) (h0 : 0 ≤ x) (h1 : x < 360) :
    -180 < foldDegrees x ∧ foldDegrees x ≤ 180 := by
  unfold foldDegrees
  split_ifs with h
  · exact ⟨by linarith, h⟩
  · push_neg at h
    exact ⟨by linarith, by linarith⟩

theorem decodeTail_ab (cmd : Char) (ab0 ab1 m0 : ℚ) :
    (decodeTail cmd ab0 ab1 m0 360).ab = some (ab0, foldDegrees (ab1 * 360)) := by
  unfold decodeTail foldDegrees
  by_cases h : ab1 * 360 ≤ 180
  · have h2 : ¬ ab1 * 360 > 180 := not_lt.mpr h
    simp only [h, h2, if_true, if_false]
  · have h2 : ab1 * 360 > 180 := not_le.mp h
    simp only [h, h2, if_true, if_false]


/-- What `decode` returns once its `switch` has set `ab` and `m` (with `m[1] = 360`). -/
theorem decode_of_fields (buf : List Char) (cmd : Char) (ab0 ab1 m0 : ℚ)
    (h : decodeFields buf cmd = some (ab0, ab1, m0, 360)) :
    decode buf cmd
      = { text := convert2hhmmss (ab0 * m0) (if cmd = 'e' ∨ cmd = 'E' then 1 else 0) ++ [' ']
            ++ convert2hhmmss (foldDegrees (ab1 * 360)) 0
          ab := some (ab0, foldDegrees (ab1 * 360)) } := by
  have hr : (if ab1 * 360 > 180 then ab1 * 360 - 360 else ab1 * 360)
      = foldDegrees (ab1 * 360) := by
    unfold foldDegrees
    by_cases h : ab1 * 360 ≤ 180
    · rw [if_neg (not_lt.mpr h), if_pos h]
    · rw [if_pos (not_le.mp h), if_neg h]
  simp only [decode, h, decodeTail, hr]

/-- The rendering of a value whose four fields are known. -/
theorem convert2hhmmss_of_fields (value : ℚ) (hour : Fin 2) (minus : Bool) (dh m sec frac : Int)
    (h : hhmmssFields value = (minus, dh, m, sec, frac)) :
    convert2hhmmss value hour
      = [if minus = false then '+' else '-'] ++ fmtDec 3 dh ++ [(ticks hour).getD 0 ' ', ' ']
          ++ fmtDec 2 m ++ [(ticks hour).getD 1 ' ', ' ']
          ++ fmtDec 2 sec ++ ['.'] ++ fmtDec 3 frac ++ [(ticks hour).getD 2 ' '] := by
  unfold convert2hhmmss
  rw [h]

/-! ## Claims on the position codec -/

/-- C4: the second field of the low precision frame does not round trip: for `x = 1/2`
(`k = 32768`) the frame is `"R8000,7FFB"`; read back the way `decode` reads a reply for
`Z`, the first field gives `1/2` again but the second gives `32763/65536`, not `1/2`. -/
theorem lowFrame_roundtrip_second :
    lowFrame 'R' (1 / 2) (1 / 2) = "R8000,7FFB".toList
      ∧ decodeFields ((lowFrame 'R' (1 / 2) (1 / 2)).drop 1) 'Z'
          = some (1 / 2, 32763 / 65536, 360, 360)
      ∧ (32763 / 65536 : ℚ) ≠ 1 / 2 := by
  have hf : lowFrame 'R' (1 / 2) (1 / 2) = "R8000,7FFB".toList := by
    simp only [lowFrame, fl_half_scaled]
    norm_num [truncToInt]
    simp [fmtHex, digitString, digitsFrom, hexChar, List.leftpad]
  refine ⟨hf, ?_, by norm_num⟩
  rw [hf]
  simp [decodeFields, strtoll16, skipHexPrefix, strtollDigits, hexVal, isspace]
  norm_num

/-- C5, as stated, fails: without a separator the first `strtoll` runs through both
fields. The reply `"1000028000#"` decodes to 1048578.5 turns and 540 degrees, rendered
`"+25165884h 00m 00.000s +540d 00m 00.000s"`, and the reply `"10002800#"` (fields `1000`
and `2800`) to 4096.15625 turns and 11.25 degrees. -/
theorem decode_unseparated_reply :
    decode "1000028000#".toList 'E'
        = { text := "+25165884h 00m 00.000s +540d 00m 00.000s".toList
            ab := some (2097157 / 2, 540) }
      ∧ cmd_getposition 'E' 10 "1000028000#".toList
        = some { text := "+25165884h 00m 00.000s +540d 00m 00.000s".toList
                 ab := some (2097157 / 2, 540) }
      ∧ (decode "1000028000#".toList 'E').text ≠ "+001h 30m 00.000s +056d 15m 00.000s".toList
      ∧ (decode "10002800#".toList 'E').ab = some (131077 / 32, 45 / 4)
      ∧ (131077 / 32 : ℚ) ≠ 4096 / 65536 := by
  have hE : (if 'E' = 'e' ∨ 'E' = 'E' then (1 : Fin 2) else 0) = 1 := by decide
  have hf : decodeFields "1000028000#".toList 'E' = some (2097157 / 2, 5 / 2, 24, 360) := by
    simp [decodeFields, strtoll16, skipHexPrefix, strtollDigits, hexVal, isspace]
    norm_num
  have hf10 : decodeFields ("1000028000#".toList.take 10) 'E'
      = some (2097157 / 2, 5 / 2, 24, 360) := by
    simp [decodeFields, strtoll16, skipHexPrefix, strtollDigits, hexVal, isspace]
    norm_num
  have hf2 : decodeFields "10002800#".toList 'E' = some (131077 / 32, 1 / 32, 24, 360) := by
    simp [decodeFields, strtoll16, skipHexPrefix, strtollDigits, hexVal, isspace]
    norm_num
  have hfold : foldDegrees ((5 / 2 : ℚ) * 360) = 540 := by norm_num [foldDegrees]
  have hfold2 : foldDegrees ((1 / 32 : ℚ) * 360) = 45 / 4 := by norm_num [foldDegrees]
  have h1 : convert2hhmmss (2097157 / 2 * 24) 1 = "+25165884h 00m 00.000s".toList := by
    have h : hhmmssFields (2097157 / 2 * 24) = (false, 25165884, 0, 0, 0) := by
      norm_num [hhmmssFields]
    rw [convert2hhmmss_of_fields _ _ _ _ _ _ _ h]
    simp [fmtDec, digitString, digitsFrom, decChar, List.leftpad, ticks]
  have h2 : convert2hhmmss 540 0 = "+540d 00m 00.000s".toList := by
    have h : hhmmssFields 540 = (false, 540, 0, 0, 0) := by
      norm_num [hhmmssFields]
    rw [convert2hhmmss_of_fields _ _ _ _ _ _ _ h]
    simp [fmtDec, digitString, digitsFrom, decChar, List.leftpad, ticks]
  have hd : decode "1000028000#".toList 'E'
      = { text := "+25165884h 00m 00.000s +540d 00m 00.000s".toList
          ab := some (2097157 / 2, 540) } := by
    rw [decode_of_fields _ _ _ _ _ hf, hE, hfold, h1, h2]
    rfl
  have hd10 : decode ("1000028000#".toList.take 10) 'E'
      = { text := "+25165884h 00m 00.000s +540d 00m 00.000s".toList
          ab := some (2097157 / 2, 540) } := by
    rw [decode_of_fields _ _ _ _ _ hf10, hE, hfold, h1, h2]
    rfl
  refine ⟨hd, ?_, ?_, ?_, by norm_num⟩
  · have hlen : ¬ ("1000028000#".toList.length < 10) := by decide
    simp only [cmd_getposition, if_neg hlen, hd10]
  · rw [hd]
    decide
  · rw [decode_of_fields _ _ _ _ _ hf2, hfold2]

/-- C5, amended: for a reply made of two fields `a` and `b` of 4 hexadecimal digits with one
separator character between them (not a hexadecimal digit, such as `,`) and a final `#`,
`decode` with command `E` stores `a/65536` turns as the first value and renders it in
hours (x24), and renders the second value `b/65536` turns in degrees (x360, less 360 above
180); `"1000,2800#"` gives 0.0625 turns, `"+001h 30m 00.000s"` and 56.25 degrees,
`"+056d 15m 00.000s"`. -/
theorem decode_getra_reply (a b : List Char) (sep : Char) (ha : hexRun 4 a = true)
    (hb : hexRun 4 b = true) (hsep : isHex sep = false) :
    decode (a ++ sep :: (b ++ ['#'])) 'E'
        = { text := convert2hhmmss ((hexValue a : ℚ) / 65536 * 24) 1 ++ [' ']
              ++ convert2hhmmss (foldDegrees ((hexValue b : ℚ) / 65536 * 360)) 0
            ab := some ((hexValue a : ℚ) / 65536, foldDegrees ((hexValue b : ℚ) / 65536 * 360)) }
      ∧ cmd_getposition 'E' 10 (a ++ sep :: (b ++ ['#']))
        = some (decode (a ++ sep :: (b ++ ['#'])) 'E')
      ∧ decode "1000,2800#".toList 'E'
        = { text := "+001h 30m 00.000s +056d 15m 00.000s".toList, ab := some (1 / 16, 225 / 4) } := by
  have hE : (if 'E' = 'e' ∨ 'E' = 'E' then (1 : Fin 2) else 0) = 1 := by decide
  have hf := decodeFields_reply 'E' a b ['#'] sep (Or.inl rfl) ha hb hsep (by decide)
  have hs : fieldScale 'E' = 65536 := by simp [fieldScale]
  have hm : (if 'E' = 'E' ∨ 'E' = 'e' then (24 : ℚ) else 360) = 24 := by simp
  rw [hs, hm] at hf
  refine ⟨?_, ?_, ?_⟩
  · rw [decode_of_fields _ _ _ _ _ hf, hE]
  · rw [hexRun_iff] at ha hb
    have hlen : (a ++ sep :: (b ++ ['#'])).length = 10 := by
      simp [ha.1, hb.1]
    have hnot : ¬ ((a ++ sep :: (b ++ ['#'])).length < 10) := by omega
    have htake : (a ++ sep :: (b ++ ['#'])).take 10 = a ++ sep :: (b ++ ['#']) :=
      List.take_of_length_le (by omega)
    simp only [cmd_getposition, if_neg hnot, htake]
  · have hf : decodeFields "1000,2800#".toList 'E' = some (1 / 16, 5 / 32, 24, 360) := by
      simp [decodeFields, strtoll16, skipHexPrefix, strtollDigits, hexVal, isspace]
      norm_num
    have hfold : foldDegrees ((5 / 32 : ℚ) * 360) = 225 / 4 := by norm_num [foldDegrees]
    have h1 : convert2hhmmss (1 / 16 * 24) 1 = "+001h 30m 00.000s".toList := by
      have h : hhmmssFields (1 / 16 * 24) = (false, 1, 30, 0, 0) := by
        norm_num [hhmmssFields]
      rw [convert2hhmmss_of_fields _ _ _ _ _ _ _ h]
      simp [fmtDec, digitString, digitsFrom, decChar, List.leftpad, ticks]
    have h2 : convert2hhmmss (225 / 4) 0 = "+056d 15m 00.000s".toList := by
      have h : hhmmssFields (225 / 4) = (false, 56, 15, 0, 0) := by
        norm_num [hhmmssFields]
      rw [convert2hhmmss_of_fields _ _ _ _ _ _ _ h]
      simp [fmtDec, digitString, digitsFrom, decChar, List.leftpad, ticks]
    rw [decode_of_fields _ _ _ _ _ hf, hE, hfold, h1, h2]
    rfl


/-- C5 (amended) at the fields `1000` and `2800` with the separator `,`. -/
theorem decode_getra_reply_witness :
    hexRun 4 "1000".toList = true ∧ hexRun 4 "2800".toList = true ∧ isHex ',' = false
      ∧ decode ("1000".toList ++ ',' :: ("2800".toList ++ ['#'])) 'E'
        = { text := convert2hhmmss ((hexValue "1000".toList : ℚ) / 65536 * 24) 1 ++ [' ']
              ++ convert2hhmmss (foldDegrees ((hexValue "2800".toList : ℚ) / 65536 * 360)) 0
            ab := some ((hexValue "1000".toList : ℚ) / 65536,
              foldDegrees ((hexValue "2800".toList : ℚ) / 65536 * 360)) }
      ∧ cmd_getposition 'E' 10 ("1000".toList ++ ',' :: ("2800".toList ++ ['#']))
        = some (decode ("1000".toList ++ ',' :: ("2800".toList ++ ['#'])) 'E')
      ∧ decode "1000,2800#".toList 'E'
        = { text := "+001h 30m 00.000s +056d 15m 00.000s".toList, ab := some (1 / 16, 225 / 4) } :=
  ⟨by decide, by decide, by decide,
    decode_getra_reply "1000".toList "2800".toList ',' (by decide) (by decide) (by decide)⟩

/-- C9: for a reply to `E`, `Z`, `e` or `z` made of two fixed-width hexadecimal fields (4
or 8 digits, one separator character between them, a tail such as `#` after them), the
value stored in `ab[1]` is `second_turn*360` when that is at most 180 and
`second_turn*360 - 360` otherwise, so it lies in `(-180, 180]`; `ab[0]` is the raw first
turn value `first/scale`, never folded; and a second turn of 0.6 gives -144. -/
theorem decode_second_fold (cmd : Char) (a b tail : List Char) (sep : Char)
    (hcmd : cmd = 'E' ∨ cmd = 'Z' ∨ cmd = 'e' ∨ cmd = 'z')
    (ha : hexRun (fieldWidth cmd) a = true) (hb : hexRun (fieldWidth cmd) b = true)
    (hsep : isHex sep = false) (htail : headNot isHex tail = true) :
    (decode (a ++ sep :: (b ++ tail)) cmd).ab
        = some ((hexValue a : ℚ) / fieldScale cmd,
            if (hexValue b : ℚ) / fieldScale cmd * 360 ≤ 180
            then (hexValue b : ℚ) / fieldScale cmd * 360
            else (hexValue b : ℚ) / fieldScale cmd * 360 - 360)
      ∧ -180 < foldDegrees ((hexValue b : ℚ) / fieldScale cmd * 360)
      ∧ foldDegrees ((hexValue b : ℚ) / fieldScale cmd * 360) ≤ 180
      ∧ ∀ ab0 m0 : ℚ, (decodeTail cmd ab0 (6 / 10) m0 360).ab = some (ab0, -144) := by
  have hf := decodeFields_reply cmd a b tail sep hcmd ha hb hsep htail
  rw [hexRun_iff] at hb
  have hlt : hexValue b < 16 ^ fieldWidth cmd := by
    have h := hexValue_lt b hb.2
    rwa [hb.1] at h
  have hsc : (0 : ℚ) < fieldScale cmd := by
    unfold fieldScale
    split_ifs <;> norm_num
  have hx0 : (0 : ℚ) ≤ (hexValue b : ℚ) / fieldScale cmd * 360 := by positivity
  have hx1 : (hexValue b : ℚ) / fieldScale cmd * 360 < 360 := by
    have h1 : (hexValue b : ℚ) < fieldScale cmd := by
      rw [fieldScale_eq]
      exact_mod_cast hlt
    have h2 : (hexValue b : ℚ) / fieldScale cmd < 1 := (div_lt_one hsc).mpr h1
    linarith
  obtain ⟨hr1, hr2⟩ := foldDegrees_range _ hx0 hx1
  refine ⟨?_, hr1, hr2, ?_⟩
  · rw [decode_of_fields _ _ _ _ _ hf]
    rfl
  · intro ab0 m0
    rw [decodeTail_ab]
    norm_num [foldDegrees]

/-- C9 at the reply `"C000,999A#"` to `Z`: the first value stays 0.75 turns, the second
(39322/65536 turns, about 216 degrees) is folded. -/
theorem decode_second_fold_witness :
    hexRun (fieldWidth 'Z') "C000".toList = true ∧ hexRun (fieldWidth 'Z') "999A".toList = true
      ∧ isHex ',' = false ∧ headNot isHex ['#'] = true
      ∧ (decode ("C000".toList ++ ',' :: ("999A".toList ++ ['#'])) 'Z').ab
        = some ((hexValue "C000".toList : ℚ) / fieldScale 'Z',
            if (hexValue "999A".toList : ℚ) / fieldScale 'Z' * 360 ≤ 180
            then (hexValue "999A".toList : ℚ) / fieldScale 'Z' * 360
            else (hexValue "999A".toList : ℚ) / fieldScale 'Z' * 360 - 360)
      ∧ -180 < foldDegrees ((hexValue "999A".toList : ℚ) / fieldScale 'Z' * 360)
      ∧ foldDegrees ((hexValue "999A".toList : ℚ) / fieldScale 'Z' * 360) ≤ 180
      ∧ ∀ ab0 m0 : ℚ, (decodeTail 'Z' ab0 (6 / 10) m0 360).ab = some (ab0, -144) :=
  ⟨by decide, by decide, by decide, by decide,
    decode_second_fold 'Z' "C000".toList "999A".toList ['#'] ',' (by decide) (by decide)
      (by decide) (by decide) (by decide)⟩


set_option maxRecDepth 100000 in
theorem fmtDec_two : ∀ n : Nat, n < 100 → fmtDec 2 (n : Int) = twoDigits n := by
  decide

set_option maxRecDepth 100000 in
theorem fmtDec_three : ∀ n : Nat, n < 1000 → fmtDec 3 (n : Int) = threeDigits n := by
  decide

theorem hhmmssFields_eq (v : ℚ) :
    hhmmssFields v
      = (decide (v < 0), ⌊|v|⌋, ⌊(|v| - ⌊|v|⌋) * 60⌋,
          ⌊((|v| - ⌊|v|⌋) * 60 - ⌊(|v| - ⌊|v|⌋) * 60⌋) * 60⌋,
          ⌊(((|v| - ⌊|v|⌋) * 60 - ⌊(|v| - ⌊|v|⌋) * 60⌋) * 60
            - ⌊((|v| - ⌊|v|⌋) * 60 - ⌊(|v| - ⌊|v|⌋) * 60⌋) * 60⌋) * 1000⌋) := by
  have habs : (if v < 0 then -v else v) = |v| := by
    split_ifs with h
    · exact (abs_of_neg h).symm
    · exact (abs_of_nonneg (not_lt.mp h)).symm
  simp only [hhmmssFields, habs]

/-- One step of the extraction: the floor of a value in `[0, k)` lies in `[0, k)` and
the remainder scaled by `j` lies in `[0, j)`. -/
theorem floor_step (x : ℚ) (k : Int) (j : ℚ) (h0 : 0 ≤ x) (h1 : x < k) (hj : 0 < j) :
    0 ≤ ⌊x⌋ ∧ ⌊x⌋ < k ∧ 0 ≤ (x - ⌊x⌋) * j ∧ (x - ⌊x⌋) * j < j := by
  have hf1 := Int.floor_le x
  have hf2 := Int.lt_floor_add_one x
  refine ⟨Int.floor_nonneg.mpr h0, Int.floor_lt.mpr h1, ?_, ?_⟩
  · exact mul_nonneg (by linarith) hj.le
  · nlinarith


/-- C10: for `|v| < 1000`, `convert2hhmmss` writes `+` for `v >= 0` and `-` for `v < 0`,
then `D` on three digits, the unit letter (`h` when the hour flag is 1, `d` when it is 0),
`M` on two digits, `m`, `S` on two digits, `.`, `F` on three digits and `s`, where
`D = floor |v|`, `M <= 59`, `S <= 59`, `F <= 999` and
`D + M/60 + S/3600 + F/3600000 <= |v| < D + M/60 + S/3600 + (F+1)/3600000`: the fraction
is truncated, not rounded. -/
theorem convert2hhmmss_fields (v : ℚ) (hour : Fin 2) (hv : |v| < 1000) :
    ∃ D M S F : Nat,
      convert2hhmmss v hour
          = [if 0 ≤ v then '+' else '-'] ++ threeDigits D ++ [if hour = 1 then 'h' else 'd', ' ']
            ++ twoDigits M ++ ['m', ' '] ++ twoDigits S ++ ['.'] ++ threeDigits F ++ ['s']
        ∧ (D : Int) = ⌊|v|⌋ ∧ D ≤ 999 ∧ M ≤ 59 ∧ S ≤ 59 ∧ F ≤ 999
        ∧ (D : ℚ) + (M : ℚ) / 60 + (S : ℚ) / 3600 + (F : ℚ) / 3600000 ≤ |v|
        ∧ |v| < (D : ℚ) + (M : ℚ) / 60 + (S : ℚ) / 3600 + ((F : ℚ) + 1) / 3600000 := by
  have ha0 : (0 : ℚ) ≤ |v| := abs_nonneg v
  obtain ⟨d0, d1, r10, r11⟩ := floor_step (|v|) 1000 60 ha0 (by exact_mod_cast hv) (by norm_num)
  obtain ⟨m0, m1, r20, r21⟩ :=
    floor_step ((|v| - ⌊|v|⌋) * 60) 60 60 r10 (by exact_mod_cast r11) (by norm_num)
  obtain ⟨s0, s1, r30, r31⟩ :=
    floor_step (((|v| - ⌊|v|⌋) * 60 - ⌊(|v| - ⌊|v|⌋) * 60⌋) * 60) 60 1000 r20
      (by exact_mod_cast r21) (by norm_num)
  obtain ⟨f0, f1, -, -⟩ :=
    floor_step ((((|v| - ⌊|v|⌋) * 60 - ⌊(|v| - ⌊|v|⌋) * 60⌋) * 60
      - ⌊((|v| - ⌊|v|⌋) * 60 - ⌊(|v| - ⌊|v|⌋) * 60⌋) * 60⌋) * 1000) 1000 1 r30
      (by exact_mod_cast r31) (by norm_num)
  have hfields := hhmmssFields_eq v
  generalize hd : ⌊|v|⌋ = d at *
  generalize hm : ⌊(|v| - (d : ℚ)) * 60⌋ = m at *
  generalize hs : ⌊((|v| - (d : ℚ)) * 60 - (m : ℚ)) * 60⌋ = s at *
  generalize hf : ⌊(((|v| - (d : ℚ)) * 60 - (m : ℚ)) * 60 - (s : ℚ)) * 1000⌋ = f at *
  have hfl := Int.floor_le ((((|v| - (d : ℚ)) * 60 - (m : ℚ)) * 60 - (s : ℚ)) * 1000)
  have hfu := Int.lt_floor_add_one ((((|v| - (d : ℚ)) * 60 - (m : ℚ)) * 60 - (s : ℚ)) * 1000)
  rw [hf] at hfl hfu
  obtain ⟨D, rfl⟩ := Int.eq_ofNat_of_zero_le d0
  obtain ⟨M, rfl⟩ := Int.eq_ofNat_of_zero_le m0
  obtain ⟨S, rfl⟩ := Int.eq_ofNat_of_zero_le s0
  obtain ⟨F, rfl⟩ := Int.eq_ofNat_of_zero_le f0
  have hD : D < 1000 := by exact_mod_cast d1
  have hM : M < 60 := by exact_mod_cast m1
  have hS : S < 60 := by exact_mod_cast s1
  have hF : F < 1000 := by exact_mod_cast f1
  refine ⟨D, M, S, F, ?_, rfl, by omega, by omega, by omega, by omega, ?_, ?_⟩
  · rw [convert2hhmmss_of_fields _ _ _ _ _ _ _ hfields, fmtDec_three D hD,
      fmtDec_two M (by omega), fmtDec_two S (by omega), fmtDec_three F hF]
    have hsign : (if decide (v < 0) = false then '+' else '-') = (if 0 ≤ v then '+' else '-') := by
      by_cases h : v < 0
      · simp [h, not_le.mpr h]
      · simp [h, not_lt.mp h]
    rw [hsign]
    fin_cases hour <;> simp [ticks]
  · push_cast at hfl
    linarith
  · push_cast at hfu
    linarith

/-- C10 at `v = -56.2505`, hour flag 0: the text is `"-056d 15m 01.800s"`. -/
theorem convert2hhmmss_fields_witness :
    |(-112501 / 2000 : ℚ)| < 1000
      ∧ ∃ D M S F : Nat,
        convert2hhmmss (-112501 / 2000) 0
            = [if 0 ≤ (-112501 / 2000 : ℚ) then '+' else '-'] ++ threeDigits D
              ++ [if (0 : Fin 2) = 1 then 'h' else 'd', ' ']
              ++ twoDigits M ++ ['m', ' '] ++ twoDigits S ++ ['.'] ++ threeDigits F ++ ['s']
          ∧ (D : Int) = ⌊|(-112501 / 2000 : ℚ)|⌋ ∧ D ≤ 999 ∧ M ≤ 59 ∧ S ≤ 59 ∧ F ≤ 999
          ∧ (D : ℚ) + (M : ℚ) / 60 + (S : ℚ) / 3600 + (F : ℚ) / 3600000
              ≤ |(-112501 / 2000 : ℚ)|
          ∧ |(-112501 / 2000 : ℚ)|
              < (D : ℚ) + (M : ℚ) / 60 + (S : ℚ) / 3600 + ((F : ℚ) + 1) / 3600000 :=
  ⟨by norm_num [abs_lt], convert2hhmmss_fields (-112501 / 2000) 0 (by norm_num [abs_lt])⟩


/-- The rendering of -56.2505 degrees. -/
theorem convert2hhmmss_sample :
    convert2hhmmss (-112501 / 2000) 0 = "-056d 15m 01.800s".toList := by
  have h : hhmmssFields (-112501 / 2000) = (true, 56, 15, 1, 800) := by
    norm_num [hhmmssFields]
  rw [convert2hhmmss_of_fields _ _ _ _ _ _ _ h]
  decide


/-! ## Error codes of the parser -/

theorem settled_done (sign type number1 number2 number3 : Int) (fraction : ℚ)
    (bp : List Char) : Settled (angleDone sign type number1 number2 number3 fraction bp) :=
  Or.inl ⟨rfl, rfl⟩

theorem settled_err (state : Int) (bp : List Char) (h1 : 1 ≤ state) (h9 : state ≤ 9) :
    Settled (angleErr state bp) :=
  Or.inr ⟨rfl, h1, h9, rfl⟩

theorem settled_errEnd (state : Int) (h1 : 1 ≤ state) (h9 : state ≤ 9) :
    Settled (angleErrEnd state) :=
  Or.inr ⟨rfl, h1, h9, rfl⟩

theorem settled_state9 (sign type number1 number2 number3 : Int) (bp : List Char) :
    Settled (state9 sign type number1 number2 number3 bp) := by
  unfold state9
  rcases scanFraction 0 (fl (1 / 10)) bp with ⟨f, _ | ⟨c, r⟩⟩
  · exact settled_errEnd _ (by norm_num) (by norm_num)
  · by_cases hc : c = 's' ∨ c = 'S'
    · simp only [hc, if_true]
      exact settled_done _ _ _ _ _ _ _
    · simp only [hc, if_false]
      exact settled_err _ _ (by norm_num) (by norm_num)

theorem settled_state8 (sign type number1 number2 number3 : Int) (bp : List Char) :
    Settled (state8 sign type number1 number2 number3 bp) := by
  cases bp with
  | nil => exact settled_errEnd _ (by norm_num) (by norm_num)
  | cons c r =>
    simp only [state8]
    by_cases hc : c = 's' ∨ c = 'S'
    · rw [if_pos hc]
      exact settled_done _ _ _ _ _ _ _
    · by_cases hp : c ≠ '.'
      · rw [if_neg hc, if_pos hp]
        exact settled_err _ _ (by norm_num) (by norm_num)
      · rw [if_neg hc, if_neg hp]
        exact settled_state9 _ _ _ _ _ _

theorem settled_state6 (sign type number1 number2 : Int) (bp : List Char) :
    Settled (state6 sign type number1 number2 bp) := by
  induction bp with
  | nil => exact settled_errEnd _ (by norm_num) (by norm_num)
  | cons c r ih =>
    simp only [state6]
    by_cases hc : isspace c = true
    · simp only [hc, if_true]
      exact ih
    · simp only [hc, state7]
      by_cases hd : isdigit c = true
      · simp only [hd, Bool.not_true, Bool.false_eq_true, if_false]
        exact settled_state8 _ _ _ _ _ _
      · simp only [Bool.not_eq_true] at hd
        simp only [hd, Bool.not_false, if_true]
        exact settled_err _ _ (by norm_num) (by norm_num)

theorem settled_state5 (sign type number1 number2 : Int) (bp : List Char) :
    Settled (state5 sign type number1 number2 bp) := by
  cases bp with
  | nil => exact settled_errEnd _ (by norm_num) (by norm_num)
  | cons c r =>
    simp only [state5]
    by_cases hc : c ≠ 'm' ∧ c ≠ 'M'
    · rw [if_pos hc]
      exact settled_err _ _ (by norm_num) (by norm_num)
    · rw [if_neg hc]
      exact settled_state6 _ _ _ _ _

theorem settled_state3 (sign type number1 : Int) (bp : List Char) :
    Settled (state3 sign type number1 bp) := by
  induction bp with
  | nil => exact settled_errEnd _ (by norm_num) (by norm_num)
  | cons c r ih =>
    simp only [state3]
    by_cases hc : isspace c = true
    · simp only [hc, if_true]
      exact ih
    · simp only [hc, state4]
      by_cases hd : isdigit c = true
      · simp only [hd, Bool.not_true, Bool.false_eq_true, if_false]
        exact settled_state5 _ _ _ _ _
      · simp only [Bool.not_eq_true] at hd
        simp only [hd, Bool.not_false, if_true]
        exact settled_err _ _ (by norm_num) (by norm_num)

theorem settled_state2 (sign number1 : Int) (bp : List Char) :
    Settled (state2 sign number1 bp) := by
  cases bp with
  | nil => exact settled_errEnd _ (by norm_num) (by norm_num)
  | cons c r =>
    simp only [state2]
    by_cases hc : c = 'd' ∨ c = 'D'
    · rw [if_pos hc]
      exact settled_state3 _ _ _ _
    · by_cases hh : c = 'h' ∨ c = 'H'
      · rw [if_neg hc, if_pos hh]
        exact settled_state3 _ _ _ _
      · rw [if_neg hc, if_neg hh]
        exact settled_err _ _ (by norm_num) (by norm_num)

theorem settled_case1 (sign : Int) (c : Char) (bp : List Char) :
    Settled (case1 sign c bp) := by
  simp only [case1]
  by_cases hd : isdigit c = true
  · simp only [hd, Bool.not_true, Bool.false_eq_true, if_false]
    exact settled_state2 _ _ _
  · simp only [Bool.not_eq_true] at hd
    simp only [hd, Bool.not_false, if_true]
    exact settled_err _ _ (by norm_num) (by norm_num)

theorem settled_state1 (sign : Int) (bp : List Char) : Settled (state1 sign bp) := by
  cases bp with
  | nil => exact settled_errEnd _ (by norm_num) (by norm_num)
  | cons c r => exact settled_case1 _ _ _

/-- A text with nothing but white space leaves through the error exit in state 0, which
stores the code 0; every other text ends with a telling code. -/
theorem convert2angle_settled (buf : List Char) :
    (buf.all isspace = true → convert2angle buf = angleErrEnd 0)
      ∧ (buf.all isspace = false → Settled (convert2angle buf)) := by
  unfold convert2angle
  induction buf with
  | nil => exact ⟨fun _ => rfl, fun h => by simp at h⟩
  | cons c r ih =>
    by_cases hc : isspace c = true
    · have e : state0 (c :: r) = state0 r := by simp only [state0, hc, if_true]
      rw [e]
      refine ⟨fun h => ih.1 ?_, fun h => ih.2 ?_⟩
      · simpa [List.all_cons, hc] using h
      · simpa [List.all_cons, hc] using h
    · simp only [Bool.not_eq_true] at hc
      refine ⟨fun h => ?_, fun _ => ?_⟩
      · simp [List.all_cons, hc] at h
      · simp only [state0, hc, Bool.false_eq_true, if_false]
        by_cases h1 : c = '+'
        · rw [if_pos h1]
          exact settled_state1 _ _
        · by_cases h2 : c = '-'
          · rw [if_neg h1, if_pos h2]
            exact settled_state1 _ _
          · rw [if_neg h1, if_neg h2]
            exact settled_case1 _ _ _

/-- Apart from texts of white space only, `*rerr` is 0 exactly on success. -/
theorem convert2angle_rerr_iff (buf : List Char) (h : buf.all isspace = false) :
    (convert2angle buf).rerr = 0 ↔ (convert2angle buf).accepted = true := by
  rcases (convert2angle_settled buf).2 h with ⟨ha, hr⟩ | ⟨ha, h1, -, -⟩
  · exact ⟨fun _ => ha, fun _ => hr⟩
  · constructor
    · intro h0
      omega
    · intro h2
      rw [ha] at h2
      exact absurd h2 (by decide)

/-- Every error exit returns the value 0. -/
theorem convert2angle_error_value (buf : List Char)
    (h : (convert2angle buf).accepted = false) : (convert2angle buf).rvalue = 0 := by
  by_cases hs : buf.all isspace = true
  · rw [(convert2angle_settled buf).1 hs]
    rfl
  · simp only [Bool.not_eq_true] at hs
    rcases (convert2angle_settled buf).2 hs with ⟨ha, -⟩ | ⟨-, -, -, hv⟩
    · rw [ha] at h
      exact absurd h (by decide)
    · exact hv

/-! ## Claims on the error reports of the parser -/

/-- C15: on a parse error `convert2angle` returns 0.0, not NaN, and 0.0 is also what the
well-formed text `"0d0m0s"` returns: for `"x"` (rejected in state 1) and `"0d0m0s"`
(accepted) the returned values are equal, so the value alone does not tell them apart. -/
theorem convert2angle_error_returns_zero :
    (convert2angle ['x']).accepted = false ∧ (convert2angle ['x']).rerr = 1
      ∧ (convert2angle ['x']).rvalue = 0
      ∧ (convert2angle "0d0m0s".toList).accepted = true
      ∧ (convert2angle "0d0m0s".toList).rvalue = 0
      ∧ (convert2angle ['x']).rvalue = (convert2angle "0d0m0s".toList).rvalue := by
  have h1 : (convert2angle ['x']).rvalue = 0 :=
    convert2angle_error_value _ (by decide)
  have h2 : (convert2angle "0d0m0s".toList).rvalue = 0 := by
    simp [convert2angle, state0, case1, state2, state3, state4, state5, state6, state7,
      state8, scanNumber, angleDone, isdigit, isspace, digitVal, wrap32, fl_zero]
  exact ⟨by decide, by decide, h1, by decide, h2, h1.trans h2.symm⟩

/-- C16: on the empty text and on a text of white space only, `convert2angle` fails (the
loop ends in state 0 without `done`) and stores `*rerr = state = 0`, the code of success. -/
theorem convert2angle_blank_rerr_zero :
    (convert2angle []).accepted = false ∧ (convert2angle []).rerr = 0
      ∧ (convert2angle [' ', '\t', ' ']).accepted = false
      ∧ (convert2angle [' ', '\t', ' ']).rerr = 0
      ∧ (convert2angle "10d30m0s".toList).accepted = true
      ∧ (convert2angle "10d30m0s".toList).rerr = 0 := by
  decide

/-! ## Claims on the command functions -/

/-- C17: for the reply bytes `(13, '#')` the test `buf[0] > num_models` (13 > 13) lets the
model byte through and `cmd_getmodel` reads `models[13]`, one past the 13 entries of the
table (indices 0 to 12); the bytes 12 and 14 behave as the claim says. -/
theorem cmd_getmodel_index_thirteen :
    models.length = 13
      ∧ cmd_getmodel 13 35 = ModelReport.lookup 13 none
      ∧ cmd_getmodel 12 35 = ModelReport.lookup 12 (some "NexStar 6/8 SE")
      ∧ cmd_getmodel 14 35 = ModelReport.unknown
      ∧ cmd_getmodel 0 35 = ModelReport.unknown := by
  decide

set_option maxRecDepth 100000 in
/-- The model byte 13 is the only one whose lookup leaves the table. -/
theorem cmd_getmodel_in_bounds : ∀ b : Nat, b < 256 → b ≠ 13 →
    cmd_getmodel b 35 = ModelReport.unknown
      ∨ (cmd_getmodel b 35 = ModelReport.lookup (b : Int) (models.get? b)
          ∧ (models.get? b).isSome = true ∧ 1 ≤ b ∧ b ≤ 12) := by
  decide


/-- C13, as stated, fails: the name `"off"` is not in the table, `cmd_settrack` sends
nothing, but it calls `errlog`, which sets `syserr = 1`; `main` then exits, and a second
command (here a valid `cmd_settrack "Off"`) is not run. -/
theorem cmd_settrack_unknown_is_fatal :
    "off".toList ∉ track_modes
      ∧ cmd_settrack "off".toList (freshWorld [35])
          = some { syserr := 1, errors := [0], sent := [], pending := [35] }
      ∧ mainLoop [cmd_settrack "off".toList, cmd_settrack "Off".toList] (freshWorld [35])
          = some ({ syserr := 1, errors := [0], sent := [], pending := [35] }, 1)
      ∧ mainLoop [cmd_settrack "Off".toList, cmd_settrack "Off".toList] (freshWorld [35, 35])
          = some ({ syserr := 0, errors := [], sent := [[84, 0], [84, 0]], pending := [] }, 2) := by
  decide

theorem track_modes_findIdx (type : List Char) (h : type ∉ track_modes) :
    track_modes.findIdx (fun mode => decide (mode = type)) = 4 := by
  simp only [track_modes, List.mem_cons, List.mem_singleton, List.not_mem_nil, or_false,
    not_or] at h
  obtain ⟨h0, h1, h2, h3⟩ := h
  have e0 : decide ("Off".toList = type) = false := decide_eq_false (Ne.symm h0)
  have e1 : decide ("Alt-Azimuth".toList = type) = false := decide_eq_false (Ne.symm h1)
  have e2 : decide ("EQNorth".toList = type) = false := decide_eq_false (Ne.symm h2)
  have e3 : decide ("EQSouth".toList = type) = false := decide_eq_false (Ne.symm h3)
  simp only [track_modes, List.findIdx_cons, List.findIdx_nil, e0, e1, e2, e3, cond_false]

/-- C13, amended: for every name that is not exactly one of `Off`, `Alt-Azimuth`,
`EQNorth`, `EQSouth`, `cmd_settrack` transmits no bytes and reads none; its only effect is
the call `errlog(0, ...)`, which sets the fatal-error flag `syserr`, so that `main` exits
after this command and runs none of the commands that follow. -/
theorem cmd_settrack_unknown (type : List Char) (w : World) (h : type ∉ track_modes) :
    cmd_settrack type w = some (errlog 0 w)
      ∧ (errlog 0 w).sent = w.sent ∧ (errlog 0 w).pending = w.pending
      ∧ (errlog 0 w).syserr = 1
      ∧ ∀ rest : List (World → Option World),
          mainLoop (cmd_settrack type :: rest) w = some (errlog 0 w, 1) := by
  have hc : cmd_settrack type w = some (errlog 0 w) := by
    simp [cmd_settrack, track_modes_findIdx type h]
  refine ⟨hc, rfl, rfl, rfl, ?_⟩
  intro rest
  simp [mainLoop, hc, errlog]

/-- C13 (amended) at the name `"off"`. -/
theorem cmd_settrack_unknown_witness :
    "off".toList ∉ track_modes
      ∧ cmd_settrack "off".toList (freshWorld [35]) = some (errlog 0 (freshWorld [35]))
      ∧ (errlog 0 (freshWorld [35])).sent = (freshWorld [35]).sent
      ∧ (errlog 0 (freshWorld [35])).pending = (freshWorld [35]).pending
      ∧ (errlog 0 (freshWorld [35])).syserr = 1
      ∧ ∀ rest : List (World → Option World),
          mainLoop (cmd_settrack "off".toList :: rest) (freshWorld [35])
            = some (errlog 0 (freshWorld [35]), 1) :=
  ⟨by decide, cmd_settrack_unknown "off".toList (freshWorld [35]) (by decide)⟩


/-! ## Printed digits read back -/

theorem digitsFrom_foldr (b : Nat) (hb : 2 ≤ b) : ∀ fuel n : Nat, n < fuel →
    (digitsFrom b fuel n).foldr (fun d acc => d + b * acc) 0 = n := by
  intro fuel
  induction fuel with
  | zero => intro n h; omega
  | succ fuel ih =>
    intro n h
    unfold digitsFrom
    by_cases hn : n < b
    · simp [hn]
    · have hdiv : n / b < n := Nat.div_lt_self (by omega) (by omega)
      rw [if_neg hn, List.foldr_cons, ih (n / b) (by omega)]
      exact Nat.mod_add_div n b

theorem digitsFrom_lt (b : Nat) (hb : 0 < b) : ∀ fuel n : Nat, ∀ d ∈ digitsFrom b fuel n, d < b := by
  intro fuel
  induction fuel with
  | zero => intro n d hd; simp [digitsFrom] at hd
  | succ fuel ih =>
    intro n d hd
    unfold digitsFrom at hd
    by_cases hn : n < b
    · rw [if_pos hn, List.mem_singleton] at hd
      omega
    · rw [if_neg hn, List.mem_cons] at hd
      rcases hd with rfl | hd
      · exact Nat.mod_lt n hb
      · exact ih _ d hd

theorem digitsFrom_ne_nil (b fuel n : Nat) : digitsFrom b (fuel + 1) n ≠ [] := by
  unfold digitsFrom
  split_ifs <;> simp

/-- Reading a printed number back digit by digit gives the number. -/
theorem digitString_foldl (b : Nat) (hb : 2 ≤ b) (digit : Nat → Char) (val : Char → Nat)
    (hval : ∀ d, d < b → val (digit d) = d) (n : Nat) :
    (digitString b digit n).foldl (fun a c => a * b + val c) 0 = n := by
  have key : ∀ l : List Nat, (∀ d ∈ l, d < b) →
      ((l.reverse).map digit).foldl (fun a c => a * b + val c) 0
        = l.foldr (fun d acc => d + b * acc) 0 := by
    intro l
    induction l with
    | nil => intro _; rfl
    | cons d l ih =>
      intro hl
      have hd : d < b := hl d (List.mem_cons_self _ _)
      have hl2 : ∀ x ∈ l, x < b := fun x hx => hl x (List.mem_cons_of_mem _ hx)
      rw [List.reverse_cons, List.map_append, List.foldl_append, ih hl2]
      simp only [List.map_cons, List.map_nil, List.foldl_cons, List.foldl_nil, List.foldr_cons,
        hval d hd]
      ring
  unfold digitString
  rw [key _ (digitsFrom_lt b (by omega) _ _), digitsFrom_foldr b hb _ _ (Nat.lt_succ_self n)]

theorem digitString_mem (b : Nat) (hb : 0 < b) (digit : Nat → Char) (n : Nat) (c : Char)
    (hc : c ∈ digitString b digit n) : ∃ d, d < b ∧ c = digit d := by
  unfold digitString at hc
  rw [List.mem_map] at hc
  obtain ⟨d, hd, rfl⟩ := hc
  exact ⟨d, digitsFrom_lt b hb _ _ d (List.mem_reverse.mp hd), rfl⟩

theorem digitString_ne_nil (b : Nat) (digit : Nat → Char) (n : Nat) :
    digitString b digit n ≠ [] := by
  unfold digitString
  simp only [ne_eq, List.map_eq_nil_iff, List.reverse_eq_nil_iff]
  exact digitsFrom_ne_nil b n n

theorem decChar_toNat : ∀ d : Nat, d < 10 → (decChar d).toNat = 48 + d := by
  decide

theorem slewFrame_fixed : ∀ rate : Int, -9 ≤ rate → rate ≤ 9 → ∀ azalt : Int,
    azalt = 0 ∨ azalt = 1 →
    slewFrame 0 azalt rate
      = [80, 2 ||| 0, 16 ||| azalt.toNat, 36 + (if rate < 0 then 1 else 0), rate.natAbs, 0, 0, 0] := by
  intro rate h1 h2 azalt ha
  rcases ha with rfl | rfl <;> interval_cases rate <;> decide

theorem slewFrame_variable (azalt rate : Int)
    (h1 : -2147483648 < 4 * rate) (h2 : 4 * rate < 2147483648) :
    ∃ b4 b5 : Nat, b4 < 256 ∧ b5 < 256
      ∧ slewFrame 1 azalt rate
        = [80, 2 ||| 1, 16 ||| azalt.toNat, 6 + (if rate < 0 then 1 else 0), b4, b5, 0, 0]
      ∧ b4 * 256 + b5 = (4 * rate).natAbs % 65536 := by
  have hw : wrap32 (rate * 4) = rate * 4 := by
    unfold wrap32
    omega
  have hb3 : toByte (((6 ||| (if rate ≥ 0 then 0 else 1) : Nat) : Int) + 30 * (if (1 : Int) = 0 then 1 else 0))
      = 6 + (if rate < 0 then 1 else 0) := by
    by_cases hr : rate < 0
    · have hr2 : ¬ rate ≥ 0 := by omega
      simp only [hr, hr2, if_true, if_false]
      decide
    · have hr2 : rate ≥ 0 := by omega
      simp only [hr, hr2, if_true, if_false]
      decide
  refine ⟨toByte (cabs (rate * 4) / 256), toByte (cabs (rate * 4) % 256), ?_, ?_, ?_, ?_⟩
  · unfold toByte
    omega
  · unfold toByte
    omega
  · simp only [slewFrame, hw, hb3]
    simp
  · unfold toByte cabs wrap32
    split_ifs <;> omega


theorem atoiDigits_all (ds : List Char) (acc : Nat) (hds : ds.all isdigit = true) :
    atoiDigits acc ds = ds.foldl (fun n c => n * 10 + (c.toNat - 48)) acc := by
  induction ds generalizing acc with
  | nil => rfl
  | cons d ds ih =>
    have hd : isdigit d = true := by simp [List.all_cons] at hds; exact hds.1
    have hds2 : ds.all isdigit = true := by simp [List.all_cons] at hds ⊢; exact hds.2
    simp only [atoiDigits, hd, if_true, List.foldl_cons]
    exact ih _ hds2

theorem isdigit_decChar : ∀ d : Nat, d < 10 → isdigit (decChar d) = true := by
  decide

/-- The decimal digits `%d` prints for a natural number: a non-empty run of digits whose
value is the number. -/
theorem decimal_spec (n : Nat) :
    digitRun (digitString 10 decChar n) = true
      ∧ atoiDigits 0 (digitString 10 decChar n) = n := by
  have hall : (digitString 10 decChar n).all isdigit = true := by
    rw [List.all_eq_true]
    intro c hc
    obtain ⟨d, hd, rfl⟩ := digitString_mem 10 (by norm_num) decChar n c hc
    exact isdigit_decChar d hd
  refine ⟨?_, ?_⟩
  · unfold digitRun
    rw [hall, Bool.and_true]
    cases h : digitString 10 decChar n with
    | nil => exact absurd h (digitString_ne_nil 10 decChar n)
    | cons c tl => rfl
  · rw [atoiDigits_all _ _ hall]
    exact digitString_foldl 10 (by norm_num) decChar (fun c => c.toNat - 48)
      (fun d hd => by simp [decChar_toNat d hd]) n

/-- The call `atoi` on the decimal text of a number in the range of `int` returns it. -/
theorem atoi_fmtDec (n : Int) (h0 : -2147483648 ≤ n) (h1 : n < 2147483648) :
    atoi (fmtDec 0 n) = n := by
  by_cases hneg : n < 0
  · obtain ⟨hrun, hval⟩ := decimal_spec n.natAbs
    have e : fmtDec 0 n = '-' :: digitString 10 decChar n.natAbs := by
      simp [fmtDec, hneg, List.leftpad]
    rw [e]
    simp only [atoi, List.dropWhile_cons, show isspace '-' = false by decide,
      Bool.false_eq_true, if_false, List.head?_cons, decide_True, true_or, if_true,
      List.tail_cons, hval]
    unfold wrap32
    omega
  · obtain ⟨hrun, hval⟩ := decimal_spec n.toNat
    have e : fmtDec 0 n = digitString 10 decChar n.toNat := by
      simp [fmtDec, hneg, List.leftpad]
    obtain ⟨d, tl, hd, hdig, -, -⟩ := digitRun_cons hrun
    have hm : d ≠ '-' := ne_of_isdigit hdig (by decide)
    have hp : d ≠ '+' := ne_of_isdigit hdig (by decide)
    rw [e]
    rw [hd] at hval ⊢
    simp only [atoi, List.dropWhile_cons, isspace_of_isdigit hdig, Bool.false_eq_true,
      if_false, List.head?_cons, Option.some.injEq, hm, hp, or_self, decide_False, hval]
    unfold wrap32
    omega


/-- C11, as stated, fails for a number beyond the range of `int`: the text
`"fixed,azimuth,4294967296"` has `n > 9`, but `atoi` hands back 0, the bound test passes
and `cmd_slew(0, 0, 0)` sends the frame `P, 2, 16, 36, 0, 0, 0, 0`. -/
theorem do_slew_fixed_wraps :
    (4294967296 : Int) > 9 ∧ "azimuth".toList ∈ axisNames
      ∧ fixedSlewText "azimuth".toList 4294967296 = "fixed,azimuth,4294967296".toList
      ∧ atoi "4294967296".toList = 0
      ∧ do_slew "fixed,azimuth,4294967296".toList (freshWorld [35])
          = some { syserr := 0, errors := [], sent := [[80, 2, 16, 36, 0, 0, 0, 0]],
                   pending := [] } := by
  decide

/-- C11, amended: for every argument text `fixed,<axis>,<n>` with a valid axis name and a
number `n` in the range of a C `int` with `n < -9` or `n > 9`, `do_slew` reports an error
(`errlog(0, ...)`) and does nothing else: `cmd_slew` is not reached, no frame is sent and
no reply is read. -/
theorem do_slew_fixed_out_of_range (axis : List Char) (n : Int) (w : World)
    (hax : axis ∈ axisNames) (hint : -2147483648 ≤ n ∧ n < 2147483648)
    (hn : n < -9 ∨ n > 9) :
    do_slew (fixedSlewText axis n) w = some (errlog 0 w)
      ∧ (errlog 0 w).sent = w.sent ∧ (errlog 0 w).pending = w.pending
      ∧ (errlog 0 w).errors = w.errors ++ [0] := by
  have hrate := atoi_fmtDec n hint.1 hint.2
  refine ⟨?_, rfl, rfl, rfl⟩
  simp only [axisNames, List.mem_cons, List.mem_singleton, List.not_mem_nil, or_false] at hax
  rcases hax with rfl | rfl | rfl | rfl <;>
    simp [do_slew, fixedSlewText, List.takeWhile, List.dropWhile, hrate, hn]

/-- C11 (amended) at `fixed,azimuth,10`. -/
theorem do_slew_fixed_out_of_range_witness :
    "azimuth".toList ∈ axisNames ∧ ((-2147483648 : Int) ≤ 10 ∧ (10 : Int) < 2147483648)
      ∧ ((10 : Int) < -9 ∨ (10 : Int) > 9)
      ∧ do_slew (fixedSlewText "azimuth".toList 10) (freshWorld [35])
          = some (errlog 0 (freshWorld [35]))
      ∧ (errlog 0 (freshWorld [35])).sent = (freshWorld [35]).sent
      ∧ (errlog 0 (freshWorld [35])).pending = (freshWorld [35]).pending
      ∧ (errlog 0 (freshWorld [35])).errors = (freshWorld [35]).errors ++ [0] :=
  ⟨by decide, by decide, by decide,
    do_slew_fixed_out_of_range "azimuth".toList 10 (freshWorld [35]) (by decide) (by decide)
      (by decide)⟩

/-- C12: for `fv` and `axis` in {0, 1} (and `rate` in [-9, 9] when fixed, `|4*rate|` within
`int` when variable) the buffer of `cmd_slew` is `P`, `2|fv`, `16|axis`, `36 + neg` (fixed)
or `6 + neg` (variable) with `neg = 1` iff `rate < 0`, two rate bytes, 0, 0; the rate bytes
are `|rate|, 0` when fixed and satisfy `byte4*256 + byte5 = |4*rate| mod 65536` when
variable; this buffer is what `cmd_slew` hands to `dev_write`. Fixed, axis 1, rate -9 gives
`P, 2, 17, 37, 9, 0, 0, 0`. -/
theorem cmd_slew_frame (fv axis rate : Int) (hfv : fv = 0 ∨ fv = 1) (hax : axis = 0 ∨ axis = 1)
    (hfix : fv = 0 → -9 ≤ rate ∧ rate ≤ 9)
    (hvar : fv = 1 → -2147483648 < 4 * rate ∧ 4 * rate < 2147483648) :
    (∃ b4 b5 : Nat, b4 < 256 ∧ b5 < 256
        ∧ slewFrame fv axis rate
          = [80, 2 ||| fv.toNat, 16 ||| axis.toNat,
              (if fv = 0 then 36 else 6) + (if rate < 0 then 1 else 0), b4, b5, 0, 0]
        ∧ (fv = 0 → b4 = rate.natAbs ∧ b5 = 0)
        ∧ (fv = 1 → b4 * 256 + b5 = (4 * rate).natAbs % 65536))
      ∧ (∀ (w : World) (c : Nat) (rest : List Nat), w.pending = c :: rest →
          ∃ w1, cmd_slew fv axis rate w = some w1
            ∧ w1.sent = w.sent ++ [slewFrame fv axis rate])
      ∧ slewFrame 0 1 (-9) = [80, 2, 17, 37, 9, 0, 0, 0] := by
  refine ⟨?_, ?_, by decide⟩
  · rcases hfv with rfl | rfl
    · obtain ⟨h1, h2⟩ := hfix rfl
      refine ⟨rate.natAbs, 0, by omega, by omega, ?_, fun _ => ⟨rfl, rfl⟩, ?_⟩
      · rw [slewFrame_fixed rate h1 h2 axis hax]
        rfl
      · intro h
        exact absurd h (by decide)
    · obtain ⟨h1, h2⟩ := hvar rfl
      obtain ⟨b4, b5, hb4, hb5, hf, hsum⟩ := slewFrame_variable axis rate h1 h2
      refine ⟨b4, b5, hb4, hb5, ?_, ?_, fun _ => hsum⟩
      · rw [hf]
        rfl
      · intro h
        exact absurd h (by decide)
  · intro w c rest hp
    have hg : ¬ ((fv ≠ 0 ∧ fv ≠ 1) ∨ (axis ≠ 0 ∧ axis ≠ 1)) := by
      rcases hfv with rfl | rfl <;> rcases hax with rfl | rfl <;> decide
    have hr : dev_read 1 (dev_write (slewFrame fv axis rate) w)
        = some ([c], { dev_write (slewFrame fv axis rate) w with pending := rest }) := by
      simp [dev_read, dev_write, hp]
    simp only [cmd_slew, if_neg hg, hr]
    by_cases hc : [c] ≠ [35]
    · rw [if_pos hc]
      exact ⟨_, rfl, rfl⟩
    · rw [if_neg hc]
      exact ⟨_, rfl, rfl⟩

/-- C12 at fixed, axis 1, rate -9. -/
theorem cmd_slew_frame_witness :
    ((0 : Int) = 0 ∨ (0 : Int) = 1) ∧ ((1 : Int) = 0 ∨ (1 : Int) = 1)
      ∧ ((∃ b4 b5 : Nat, b4 < 256 ∧ b5 < 256
        ∧ slewFrame 0 1 (-9)
          = [80, 2 ||| (0 : Int).toNat, 16 ||| (1 : Int).toNat,
              (if (0 : Int) = 0 then 36 else 6) + (if (-9 : Int) < 0 then 1 else 0), b4, b5, 0, 0]
        ∧ ((0 : Int) = 0 → b4 = (-9 : Int).natAbs ∧ b5 = 0)
        ∧ ((0 : Int) = 1 → b4 * 256 + b5 = (4 * (-9) : Int).natAbs % 65536))
      ∧ (∀ (w : World) (c : Nat) (rest : List Nat), w.pending = c :: rest →
          ∃ w1, cmd_slew 0 1 (-9) w = some w1
            ∧ w1.sent = w.sent ++ [slewFrame 0 1 (-9)])
      ∧ slewFrame 0 1 (-9) = [80, 2, 17, 37, 9, 0, 0, 0]) :=
  ⟨by decide, by decide,
    cmd_slew_frame 0 1 (-9) (by decide) (by decide) (fun _ => by decide)
      (fun h => absurd h (by decide))⟩


end ScopeControl
